import Mathlib

/-!
# revorb: recomputation of granule positions in Ogg Vorbis files

A shallow embedding of `src/revorb.cpp` (functions `copy_headers` and `main`).

The program is a thin layer over three external libraries: libogg (page framing,
packet segmentation), libvorbis (header decoding, block size of a packet) and the
C++ stream library (`ifstream`, `ofstream`, `remove`, `rename`).  None of them is
part of the repository, so they enter the embedding as follows.

* What libogg hands to the program while it demultiplexes the input is a finite
  list of `SyncStep`s: one entry per call of `ogg_sync_pageout` on the input
  synchroniser, together with what the following `read` delivered (when the call
  asked for more data) or what `ogg_stream_packetout` will deliver for the page
  (when the call produced one).  A finite input gives a finite list, because
  every call that does not ask for data consumes buffered bytes and every read
  that returns data consumes bytes of the file; the end of the list is the end of
  the file (`ogg_sync_pageout` returns 0 and `read` returns no byte).
* libvorbis and the page builder of libogg are the fields of `Lib`.
* `ofstream` follows the C++ standard: `open` raises `failbit` when it fails; a
  stream that is not good ignores a write (and raises `failbit`); a `write` on a
  good stream either leaves its bytes in the buffer of the stream, or hands the
  buffer and the bytes to the device, and raises `badbit` when the device does
  not take them all; `close` hands the buffer to the device and raises `failbit`
  when that fails; `bad()` reads `badbit`.  When a write goes to the device is
  up to the implementation: it is the field `direct` of `Lib`.

Fields marked "ghost" record the history of a run; the program does not read them.
-/

namespace Revorb

/-- Raw bytes. -/
abbrev Bytes := List Nat

/-! ## Machine integers -/

/-- Two's complement value of an integer in a signed word of `w` bits. -/
def wrap (w : Nat) (x : Int) : Int :=
  (x + 2 ^ (w - 1)) % 2 ^ w - 2 ^ (w - 1)

/-- The C type `int`. -/
def wrap32 (x : Int) : Int := wrap 32 x

/-- The type `ogg_int64_t`. -/
def wrap64 (x : Int) : Int := wrap 64 x

/-! ## libogg and libvorbis -/

/-- The fields of libogg's `ogg_packet` that the program reads or writes. -/
structure ogg_packet where
  packet : Bytes
  e_o_s : Bool
  granulepos : Int
  packetno : Int
deriving DecidableEq, Repr

/-- One result of `ogg_stream_packetout` on the input stream that is not 0:
`hole` is a negative result, `pkt p` is result 1 with the packet it filled in. -/
inductive PacketOut where
  | hole
  | pkt (p : ogg_packet)
deriving DecidableEq, Repr

/-- One call of `ogg_sync_pageout` on the input synchroniser.
* `needData n`: the call returned 0 and the following `read` delivered `n` bytes;
* `desync`: the call returned a negative value;
* `page eos accepted outs`: the call returned 1; `eos` is `ogg_page_eos` of the
  page, `accepted` tells whether `ogg_stream_pagein` takes the page (returns 0),
  and `outs` are the results that the page adds to what `ogg_stream_packetout`
  delivers before it returns 0. -/
inductive SyncStep where
  | needData (numread : Nat)
  | desync
  | page (eos : Bool) (accepted : Bool) (outs : List PacketOut)
deriving DecidableEq, Repr

/-- The library functions the program calls on data.
* `headerin`: whether `vorbis_synthesis_headerin` on the first packet returns a
  non-negative value;
* `blocksize vi p`: `vorbis_packet_blocksize` for the packet bytes `p`, where `vi`
  is the codec state, given by the header packets fed to
  `vorbis_synthesis_headerin` so far;
* `pageCut`, `flushCut`: how many of the packets buffered in the output stream
  the next page of `ogg_stream_pageout`, respectively `ogg_stream_flush`, takes;
* `header`, `body`: the bytes of a page that carries the given packets;
* `direct k n`: whether the file buffer of the output stream hands a write of `n`
  bytes to the device at once when it holds `k` bytes (in libstdc++: when `n` is
  at least 1024 or at least the free space of the buffer); otherwise the bytes
  stay in the buffer. -/
structure Lib where
  headerin : Bytes → Bool
  blocksize : List Bytes → Bytes → Int
  pageCut : List ogg_packet → Nat
  flushCut : List ogg_packet → Nat
  header : List ogg_packet → Bytes
  body : List ogg_packet → Bytes
  direct : Nat → Nat → Bool

/-- The call `ogg_stream_packetin` on the output stream: the packet joins the buffer. -/
def ogg_stream_packetin (os : List ogg_packet) (p : ogg_packet) : List ogg_packet :=
  os ++ [p]

/-- The call `ogg_stream_pageout` on the output stream, at the granularity of
packets: `none` when no page is ready, else the packets of the page and the
packets that stay buffered. -/
def ogg_stream_pageout (lib : Lib) (os : List ogg_packet) :
    Option (List ogg_packet × List ogg_packet) :=
  let n := min (lib.pageCut os) os.length
  if n = 0 then none else some (os.take n, os.drop n)

/-- The call `ogg_stream_flush` on the output stream: a page is produced as long
as a packet is buffered. -/
def ogg_stream_flush (lib : Lib) (os : List ogg_packet) :
    Option (List ogg_packet × List ogg_packet) :=
  let n := max 1 (min (lib.flushCut os) os.length)
  if os = [] then none else some (os.take n, os.drop n)

/-! ## The output file stream -/

/-- State of a `std::ofstream`.  `room` is the number of bytes the device still
takes, `data` the bytes stored on the device so far, `pending` the bytes in the
buffer of the stream; `calls` (ghost) counts the `write` calls. -/
structure ofstream where
  path : String
  is_open : Bool
  failbit : Bool
  badbit : Bool
  room : Nat
  data : Bytes
  pending : Bytes
  calls : Nat
deriving DecidableEq, Repr

/-- A default-constructed stream. -/
def ofstream.fresh (room : Nat) : ofstream :=
  { path := "", is_open := false, failbit := false, badbit := false,
    room := room, data := [], pending := [], calls := 0 }

/-- The member `open`: on success the file is created empty and the state is
cleared; on failure `failbit` is raised, and `badbit` is left as it is
(C++ standard, [ofstream.members]: "calls `setstate(failbit)`"). -/
def ofstream.openFile (fo : ofstream) (path : String) (canOpen : Bool) : ofstream :=
  if canOpen then { fo with path := path, is_open := true, failbit := false, badbit := false }
  else { fo with path := path, failbit := true }

/-- The member `bad()`. -/
def ofstream.bad (fo : ofstream) : Bool := fo.badbit

/-- Whether a `write` of `b` loses no byte: the stream is good, and the bytes
stay in the buffer or the device has room for the buffer and the bytes. -/
def ofstream.takes (lib : Lib) (fo : ofstream) (b : Bytes) : Bool :=
  fo.is_open && !fo.failbit && !fo.badbit &&
  (!lib.direct fo.pending.length b.length ||
    decide (fo.pending.length + b.length ≤ fo.room))

/-- The member `write`. -/
def ofstream.write (lib : Lib) (fo : ofstream) (b : Bytes) : ofstream :=
  if !fo.is_open || fo.failbit || fo.badbit then
    { fo with failbit := true, calls := fo.calls + 1 }
  else if !lib.direct fo.pending.length b.length then
    { fo with pending := fo.pending ++ b, calls := fo.calls + 1 }
  else if fo.pending.length + b.length ≤ fo.room then
    { fo with data := fo.data ++ (fo.pending ++ b), pending := [],
              room := fo.room - (fo.pending.length + b.length), calls := fo.calls + 1 }
  else
    { fo with data := fo.data ++ (fo.pending ++ b).take fo.room, pending := [], room := 0,
              badbit := true, calls := fo.calls + 1 }

/-- Whether `close` loses no byte. -/
def ofstream.closes (fo : ofstream) : Bool :=
  decide (fo.pending.length ≤ fo.room)

/-- The member `close` (line 271): the buffer goes to the device; `failbit` is
raised when the stream is not open or the device does not take the buffer. -/
def ofstream.close (fo : ofstream) : ofstream :=
  if !fo.is_open then { fo with failbit := true }
  else if fo.pending.length ≤ fo.room then
    { fo with data := fo.data ++ fo.pending, pending := [],
              room := fo.room - fo.pending.length, is_open := false }
  else
    { fo with data := fo.data ++ fo.pending.take fo.room, pending := [], room := 0,
              failbit := true, is_open := false }

/-- Result of writing one page. -/
structure PageWrite where
  fo : ofstream
  bad : Bool
  complete : Bool
deriving DecidableEq, Repr

/-- The expression
`fo.write(page.header, ..).bad() || fo.write(page.body, ..).bad()`:
the body is not written when the header write reports `bad()`.
`complete` (ghost) tells whether no byte of the page was lost by the two calls. -/
def writePage (lib : Lib) (fo : ofstream) (pg : List ogg_packet) : PageWrite :=
  let fo1 := fo.write lib (lib.header pg)
  if fo1.bad then { fo := fo1, bad := true, complete := false }
  else
    let fo2 := fo1.write lib (lib.body pg)
    { fo := fo2, bad := fo2.bad,
      complete := fo.takes lib (lib.header pg) && fo1.takes lib (lib.body pg) }

/-! ## Program state -/

/-- The messages the program prints on standard error. -/
inductive Msg where
  | usage
  | couldNotOpenOutput
  | notOgg
  | firstPageError
  | firstPacketError
  | notVorbis
  | headersDamaged
  | secondaryCorrupted
  | cannotWriteHeaders
  | corruptedData
  | bitstreamError
  | unableToWritePage
  | cannotPutBack
deriving DecidableEq, Repr

/-- The text of a message. -/
def Msg.text : Msg → String
  | .usage => "Usage:\n  revorb <input.ogg> [output.ogg]\n"
  | .couldNotOpenOutput => "Could not open output file.\n"
  | .notOgg => "Input file is not an Ogg file.\n"
  | .firstPageError => "Error in the first page.\n"
  | .firstPacketError => "Error in the first packet.\n"
  | .notVorbis => "Error in header, probably not a Vorbis file.\n"
  | .headersDamaged => "Headers are damaged, file is probably truncated.\n"
  | .secondaryCorrupted => "Secondary header is corrupted.\n"
  | .cannotWriteHeaders => "Cannot write headers to output.\n"
  | .corruptedData => "Warning: Corrupted or missing data in bitstream.\n"
  | .bitstreamError => "Warning: Bitstream error.\n"
  | .unableToWritePage => "Unable to write page to output.\n"
  | .cannotPutBack => "Could not put the output file back in place.\n"

/-- The variables of `main` and `copy_headers`.
* `trace`: what the input will still deliver; `is`: results waiting in `stream_in`;
* `os`: packets buffered in `stream_out`; `vi`: header packets decoded so far;
* `granpos`, `packetnum`, `lastbs`, `packet`, `eos`, `g_failed`: as in the source;
* ghost: `headers` and `injected` are the packets passed to `ogg_stream_packetin`
  on the output stream by `copy_headers`, respectively by `main`; `stamped` are
  the packets in the state the stamping leaves them; `written` are the packets of
  the pages that the output stream took without loss; `lost` tells whether a
  byte given to the output stream was lost, at a write or at the close. -/
structure State where
  trace : List SyncStep
  is : List PacketOut
  os : List ogg_packet
  vi : List Bytes
  fo : ofstream
  err : List Msg
  g_failed : Bool
  granpos : Int
  packetnum : Int
  lastbs : Int
  packet : ogg_packet
  eos : Int
  headers : List ogg_packet
  injected : List ogg_packet
  stamped : List ogg_packet
  written : List ogg_packet
  lost : Bool
deriving DecidableEq, Repr

/-- The state at the call of `copy_headers`; `garbage` is the value of the
uninitialised variable `packet` of `main`. -/
def State.init (trace : List SyncStep) (fo : ofstream) (garbage : ogg_packet) : State :=
  { trace := trace, is := [], os := [], vi := [], fo := fo, err := [],
    g_failed := false, granpos := 0, packetnum := 0, lastbs := 0,
    packet := garbage, eos := 0, headers := [], injected := [], stamped := [], written := [],
    lost := false }

/-! ## copy_headers -/

/-- The two calls `ogg_stream_clear(is); ogg_stream_clear(os);` of the error exits. -/
def State.clearStreams (s : State) : State :=
  { s with is := [], os := [] }

/-- An error exit of `copy_headers`: message, both streams cleared. -/
def State.failWith (s : State) (m : Msg) : State :=
  { s.clearStreams with err := s.err ++ [m] }

/-- Lines 101-115: the inner loop of the header stage.  `pend` is what
`ogg_stream_packetout` still delivers, `i` the number of secondary headers taken.
Returns whether the loop ended without an error exit, the counter and the state. -/
def takeHeaders : List PacketOut → Nat → State → Bool × Nat × State
  | [], i, s => (true, i, { s with is := [] })
  | PacketOut.hole :: rest, i, s =>
    if i < 2 then (false, i, ({ s with is := rest }).failWith Msg.secondaryCorrupted)
    else (true, i, { s with is := PacketOut.hole :: rest })
  | PacketOut.pkt p :: rest, i, s =>
    if i < 2 then
      takeHeaders rest (i + 1)
        { s with vi := s.vi ++ [p.packet], os := ogg_stream_packetin s.os p,
                 headers := s.headers ++ [p] }
    else (true, i, { s with is := PacketOut.pkt p :: rest })

/-- The call `ogg_stream_pagein` on the input stream: an accepted page adds its
results to the ones waiting. -/
def ogg_stream_pagein (is : List PacketOut) (accepted : Bool) (outs : List PacketOut) :
    List PacketOut :=
  if accepted then is ++ outs else is

/-- Lines 81-117: the loop `while (i < 2)` of the header stage.  After a read
that delivers bytes, line 95 reports 4096 bytes to the synchroniser whatever the
number read; what the synchroniser makes of the bytes is in the steps that
follow. -/
def headerLoop : List SyncStep → Nat → State → Bool × State
  | [], i, s =>
    if i < 2 then (false, ({ s with trace := [] }).failWith Msg.headersDamaged)
    else (true, { s with trace := [] })
  | SyncStep.needData n :: rest, i, s =>
    if i < 2 then
      if n = 0 then (false, ({ s with trace := rest }).failWith Msg.headersDamaged)
      else headerLoop rest i s
    else (true, { s with trace := SyncStep.needData n :: rest })
  | SyncStep.desync :: rest, i, s =>
    if i < 2 then headerLoop rest i s
    else (true, { s with trace := SyncStep.desync :: rest })
  | SyncStep.page eos acc outs :: rest, i, s =>
    if i < 2 then
      let r := takeHeaders (ogg_stream_pagein s.is acc outs) i s
      if r.1 then headerLoop rest r.2.1 r.2.2
      else (false, { r.2.2 with trace := rest })
    else (true, { s with trace := SyncStep.page eos acc outs :: rest })

/-- Lines 121-128: the headers are flushed to the output. -/
def flushHeaders (lib : Lib) : Nat → State → Bool × State
  | 0, s => (true, s)
  | fuel + 1, s =>
    match ogg_stream_flush lib s.os with
    | none => (true, s)
    | some (pg, rest) =>
      let w := writePage lib s.fo pg
      if w.bad then
        (false, ({ s with os := rest, fo := w.fo, lost := true }).failWith
                  Msg.cannotWriteHeaders)
      else
        flushHeaders lib fuel
          { s with os := rest, fo := w.fo,
                   written := if w.complete then s.written ++ pg else s.written,
                   lost := s.lost || !w.complete }

/-- The function `copy_headers`. -/
def copy_headers (lib : Lib) (s : State) : Bool × State :=
  match s.trace with
  | SyncStep.page _ acc outs :: rest =>
    let s := { s with trace := rest }
    if !acc then (false, s.failWith Msg.firstPageError)
    else
      match outs with
      | PacketOut.pkt p :: more =>
        let s := { s with is := more }
        if !lib.headerin p.packet then (false, s.failWith Msg.notVorbis)
        else
          let s := { s with vi := [p.packet], os := ogg_stream_packetin s.os p,
                            headers := [p] }
          let r := headerLoop s.trace 0 s
          if r.1 then flushHeaders lib r.2.os.length r.2
          else r
      | _ => (false, s.failWith Msg.firstPacketError)
  | _ => (false, { s with err := s.err ++ [Msg.notOgg] })

/-! ## main: the granule recomputation loop -/

/-- Lines 227-235: pages that are ready are written; a write that reports `bad()`
sets `eos = 2` and `g_failed` and leaves this loop. -/
def pageoutLoop (lib : Lib) : Nat → State → State
  | 0, s => s
  | fuel + 1, s =>
    match ogg_stream_pageout lib s.os with
    | none => s
    | some (pg, rest) =>
      let w := writePage lib s.fo pg
      if w.bad then
        { s with os := rest, fo := w.fo, err := s.err ++ [Msg.unableToWritePage],
                 eos := 2, g_failed := true, lost := true }
      else
        pageoutLoop lib fuel
          { s with os := rest, fo := w.fo,
                   written := if w.complete then s.written ++ pg else s.written,
                   lost := s.lost || !w.complete }

/-- Lines 217-223: block size, running granule position, stamping. -/
def stamp (lib : Lib) (s : State) (p : ogg_packet) : State :=
  let bs := wrap32 (lib.blocksize s.vi p.packet)
  let granpos :=
    if s.lastbs ≠ 0 then wrap64 (s.granpos + Int.tdiv (wrap32 (s.lastbs + bs)) 4)
    else s.granpos
  let q : ogg_packet := { p with granulepos := granpos, packetno := s.packetnum }
  { s with granpos := granpos, lastbs := bs, packetnum := wrap64 (s.packetnum + 1),
           packet := q, stamped := s.stamped ++ [q] }

/-- Lines 224-236: a stamped packet that is not flagged end-of-stream is injected
and the pages that are ready are written. -/
def inject (lib : Lib) (s : State) : State :=
  if s.packet.e_o_s then s
  else
    pageoutLoop lib (s.os.length + 1)
      { s with os := ogg_stream_packetin s.os s.packet,
               injected := s.injected ++ [s.packet] }

/-- Lines 207-237: the loop `while (1)` over the results of `ogg_stream_packetout`. -/
def packetLoop (lib : Lib) : List PacketOut → State → State
  | [], s => { s with is := [] }
  | PacketOut.hole :: rest, s =>
    packetLoop lib rest { s with err := s.err ++ [Msg.bitstreamError], g_failed := true }
  | PacketOut.pkt p :: rest, s =>
    packetLoop lib rest (inject lib (stamp lib s p))

/-- Lines 186-239: the loop `while (!eos)`. -/
def pageLoop (lib : Lib) : List SyncStep → State → State
  | [], s => if s.eos ≠ 0 then { s with trace := [] } else { s with trace := [], eos := 2 }
  | SyncStep.needData n :: rest, s =>
    if s.eos ≠ 0 then { s with trace := SyncStep.needData n :: rest }
    else if n > 0 then pageLoop lib rest s
    else pageLoop lib rest { s with eos := 2 }
  | SyncStep.desync :: rest, s =>
    if s.eos ≠ 0 then { s with trace := SyncStep.desync :: rest }
    else pageLoop lib rest { s with err := s.err ++ [Msg.corruptedData], g_failed := true }
  | SyncStep.page eos acc outs :: rest, s =>
    if s.eos ≠ 0 then { s with trace := SyncStep.page eos acc outs :: rest }
    else
      let s1 := { s with eos := if eos then 1 else 0 }
      pageLoop lib rest (packetLoop lib (ogg_stream_pagein s1.is acc outs) s1)

/-- Lines 248-254: the remaining packets are flushed; a write that reports
`bad()` sets `g_failed` and leaves the loop. -/
def flushLoop (lib : Lib) : Nat → State → State
  | 0, s => s
  | fuel + 1, s =>
    match ogg_stream_flush lib s.os with
    | none => s
    | some (pg, rest) =>
      let w := writePage lib s.fo pg
      if w.bad then
        { s with os := rest, fo := w.fo, err := s.err ++ [Msg.unableToWritePage],
                 g_failed := true, lost := true }
      else
        flushLoop lib fuel
          { s with os := rest, fo := w.fo,
                   written := if w.complete then s.written ++ pg else s.written,
                   lost := s.lost || !w.complete }

/-- Line 245: `packet.e_o_s = 1`. -/
def flagEos (p : ogg_packet) : ogg_packet :=
  { p with e_o_s := true }

/-- Lines 241-257: nothing when `eos == 2`; else the variable `packet` is flagged
end-of-stream, injected, and the output stream is flushed. -/
def finish (lib : Lib) (s : State) : State :=
  if s.eos = 2 then s
  else
    let s1 := { s with packet := flagEos s.packet,
                       os := ogg_stream_packetin s.os (flagEos s.packet),
                       injected := s.injected ++ [flagEos s.packet] }
    { flushLoop lib s1.os.length s1 with is := [] }

/-- Lines 181-260: the body of `if (copy_headers(...))`, from the state that
`copy_headers` leaves. -/
def granuleLoop (lib : Lib) (s : State) : State :=
  let s0 := { s with granpos := 0, packetnum := 0, lastbs := 0, eos := 0 }
  { finish lib (pageLoop lib s0.trace s0) with os := [] }

/-! ## main -/

/-- The files of the machine: the content stored under each path, if any. -/
abbrev Files := String → Option Bytes

/-- The files after the content under `path` is replaced. -/
def Files.set (fs : Files) (path : String) (c : Option Bytes) : Files :=
  fun q => if q = path then c else fs q

/-- The calls of `remove` and `rename` that a run issues. -/
inductive FsOp where
  | remove (path : String)
  | rename (src dst : String)
deriving DecidableEq, Repr

/-- What the run finds on the machine: the files, which paths an `ofstream` can
open for writing, and how many bytes the output device takes. -/
structure Env where
  files : Files
  canOpen : String → Bool
  room : Nat

/-- What a run of `main` leaves: the exit code, the files, the calls of `remove`
and `rename`, the messages of `main` outside the loop, whether `copy_headers`
returned true (false when it was not called), the program state at the return
of `copy_headers` (ghost) and the final program state. -/
structure Outcome where
  exit : Int
  files : Files
  ops : List FsOp
  err : List Msg
  headersOk : Bool
  hdr : State
  st : State

/-- Lines 273-280: in-place mode puts the output in place, or discards it. -/
def putBack (fs : Files) (ifilename tmpName : String) (g_failed : Bool) :
    Files × List FsOp × List Msg :=
  if g_failed then (fs.set tmpName none, [FsOp.remove tmpName], [])
  else if fs ifilename = none then
    (fs, [FsOp.remove ifilename], [Msg.cannotPutBack])
  else
    let fs1 := fs.set ifilename none
    if fs1 tmpName = none then
      (fs1, [FsOp.remove ifilename, FsOp.rename tmpName ifilename], [Msg.cannotPutBack])
    else
      ((fs1.set ifilename (fs1 tmpName)).set tmpName none,
       [FsOp.remove ifilename, FsOp.rename tmpName ifilename], [])

/-- Lines 180-263: the header stage, then the loop or the failure flag. -/
def process (lib : Lib) (s : State) : State :=
  if (copy_headers lib s).1 then granuleLoop lib (copy_headers lib s).2
  else { (copy_headers lib s).2 with g_failed := true }

/-- The path the output stream is opened on: the second argument, or else the
name of the temporary file. -/
def outputPath (ifilename : String) (more : List String) : String :=
  match more with
  | output :: _ => output
  | [] => ifilename ++ ".tmp"

/-- Line 271: `fo.close()`; its outcome is not tested. -/
def State.closeOutput (s : State) : State :=
  { s with fo := s.fo.close, lost := s.lost || !s.fo.closes }

/-- Lines 148-165: the output stream after the call of `open`. -/
def openOutput (env : Env) (target : String) : ofstream :=
  (ofstream.fresh env.room).openFile target (env.canOpen target)

/-- Lines 145-281: `main` once the input argument is known to be there; `more`
are the arguments after the input. -/
def mainWith (lib : Lib) (env : Env) (ifilename : String) (more : List String)
    (trace : List SyncStep) (garbage : ogg_packet) : Outcome :=
  let target := outputPath ifilename more
  let fo := openOutput env target
  if fo.bad then
    { exit := 2, files := env.files, ops := [], err := [Msg.couldNotOpenOutput],
      headersOk := false, hdr := State.init trace fo garbage,
      st := State.init trace fo garbage }
  else
    let files1 := if fo.is_open then env.files.set target (some []) else env.files
    let h := copy_headers lib (State.init trace fo garbage)
    let s := (process lib (State.init trace fo garbage)).closeOutput
    let files2 := if fo.is_open then files1.set target (some s.fo.data) else files1
    if more.length = 0 then
      let b := putBack files2 ifilename target s.g_failed
      { exit := 0, files := b.1, ops := b.2.1, err := b.2.2, headersOk := h.1, hdr := h.2,
        st := s }
    else
      { exit := 0, files := files2, ops := [], err := [], headersOk := h.1, hdr := h.2,
        st := s }

/-- The function `main`.  `argv` holds the program name and the arguments,
`trace` is what the input delivers, `garbage` the initial value of the variable
`packet`. -/
def main (lib : Lib) (env : Env) (argv : List String) (trace : List SyncStep)
    (garbage : ogg_packet) : Outcome :=
  match argv with
  | _ :: ifilename :: more => mainWith lib env ifilename more trace garbage
  | _ =>
    { exit := 1, files := env.files, ops := [], err := [Msg.usage], headersOk := false,
      hdr := State.init trace (ofstream.fresh env.room) garbage,
      st := State.init trace (ofstream.fresh env.room) garbage }

/-! ## The rule for granule positions -/

/-- The pair `(lastbs, granpos)` after a packet whose block size is `b`, from the
pair before it: lines 217-220 on their own. -/
def stepG (st : Int × Int) (b : Int) : Int × Int :=
  (wrap32 b,
   if st.1 ≠ 0 then wrap64 (st.2 + Int.tdiv (wrap32 (st.1 + wrap32 b)) 4) else st.2)

/-- The granule positions that lines 217-222 give to a run of packets with block
sizes `bs`, from the pair `(lastbs, granpos)` before the first of them. -/
def granules : Int × Int → List Int → List Int
  | _, [] => []
  | st, b :: bs => (stepG st b).2 :: granules (stepG st b) bs

/-- Block sizes of the stamped packets of a state, as `vorbis_packet_blocksize`
returns them. -/
def State.blocksizes (lib : Lib) (s : State) : List Int :=
  s.stamped.map (fun p => lib.blocksize s.vi p.packet)

/-- The stamped packets carry the granule positions of `granules`, and the
variables `lastbs` and `granpos` are where the rule leaves them. -/
def StampInv (lib : Lib) (s : State) : Prop :=
  s.stamped.map (fun p => p.granulepos) = granules (0, 0) (s.blocksizes lib) ∧
  (s.lastbs, s.granpos) = (s.blocksizes lib).foldl stepG (0, 0)

/-- A block size that `vorbis_packet_blocksize` can return: not zero, and of
magnitude at most 8192 (the block sizes of Vorbis lie between 64 and 8192, the
error codes of libvorbis between -138 and -1). -/
def ReturnedBlocksize (b : Int) : Prop := b ≠ 0 ∧ -8192 ≤ b ∧ b ≤ 8192

instance (b : Int) : Decidable (ReturnedBlocksize b) := by
  unfold ReturnedBlocksize; infer_instance

/-- A block size of an audio packet, or zero: not negative, at most 8192. -/
def AudioBlocksize (b : Int) : Prop := 0 ≤ b ∧ b ≤ 8192

instance (b : Int) : Decidable (AudioBlocksize b) := by
  unfold AudioBlocksize; infer_instance

/-- Either the failure flag is raised, or no decode error was reported and no
write has raised `badbit`. -/
def FlagInv (s : State) : Prop :=
  s.g_failed = true ∨
  (Msg.corruptedData ∉ s.err ∧ Msg.bitstreamError ∉ s.err ∧ s.fo.badbit = false)

/-- The codec state is made of the header packets that were injected, and, as
long as every page was stored completely, the packets written followed by the
packets still buffered are the packets injected, in the order of injection. -/
def OutInv (s : State) : Prop :=
  s.vi = s.headers.map (fun p => p.packet) ∧
  (s.lost = false → s.written ++ s.os = s.headers ++ s.injected)

/-- The results that a step of the input adds to the ones `ogg_stream_packetout`
delivers. -/
def SyncStep.outs : SyncStep → List PacketOut
  | SyncStep.page _ true outs => outs
  | _ => []

/-- All the results that the steps of an input deliver. -/
def delivered (tr : List SyncStep) : List PacketOut :=
  (tr.map SyncStep.outs).flatten

/-- The invariant of the loop on the output side: `OutInv`, and no packet
injected so far is flagged end-of-stream. -/
def LoopInv (s : State) : Prop :=
  OutInv s ∧ ∀ p ∈ s.injected, p.e_o_s = false

/-- A step of the audio part of a well-formed stream before its last page: a read
that delivers `n + 1` bytes, or a page that is not flagged end-of-stream, is
accepted and carries the given packets. -/
inductive AudioStep where
  | read (n : Nat)
  | page (ps : List ogg_packet)
deriving DecidableEq, Repr

/-- What the program sees of a step of the audio part. -/
def AudioStep.toSync : AudioStep → SyncStep
  | AudioStep.read n => SyncStep.needData (n + 1)
  | AudioStep.page ps => SyncStep.page false true (ps.map PacketOut.pkt)

/-- The packets of a step of the audio part. -/
def AudioStep.packets : AudioStep → List ogg_packet
  | AudioStep.read _ => []
  | AudioStep.page ps => ps

/-- The packets of a run of steps of the audio part. -/
def audioPackets (pre : List AudioStep) : List ogg_packet :=
  (pre.map AudioStep.packets).flatten

/-- The loop went from state `s` to state `r` without raising a flag, and took
the packets `ps` on the way: packets with their payloads were stamped and
injected in this order. -/
def Took (s r : State) (ps : List ogg_packet) : Prop :=
  r.eos = s.eos ∧ r.g_failed = s.g_failed ∧ r.vi = s.vi ∧ r.headers = s.headers ∧
  ∃ qs : List ogg_packet, r.injected = s.injected ++ qs ∧ r.stamped = s.stamped ++ qs ∧
    qs.map (fun p => p.packet) = ps.map (fun p => p.packet)

/-! ## Sample inputs -/

/-- A library whose block size is 2048 for packets that start with an even byte,
256 for packets that start with an odd byte and the error code -135
(`OV_ENOTAUDIO`) for empty packets; a page is ready as soon as two packets are
buffered. -/
def sampleLib : Lib where
  headerin := fun _ => true
  blocksize := fun _ p => match p with
    | [] => -135
    | x :: _ => if x % 2 = 0 then 2048 else 256
  pageCut := fun os => if 2 ≤ os.length then 2 else 0
  flushCut := fun _ => 255
  header := fun pg => [pg.length]
  body := fun pg => (pg.map (fun p => p.packet)).flatten
  direct := fun k n => decide (min 1024 (8191 - k) ≤ n)

/-- A packet as the input delivers it, with a stale granule position. -/
def samplePacket (b : Bytes) (e_o_s : Bool) : ogg_packet :=
  { packet := b, e_o_s := e_o_s, granulepos := -1, packetno := 77 }

/-- A machine with one file, on which every path can be opened for writing. -/
def sampleEnv : Env where
  files := fun q => if q = "a.ogg" then some [1, 2, 3] else none
  canOpen := fun _ => true
  room := 1000

/-- The three header pages of a stream. -/
def sampleHeaders : List SyncStep :=
  [SyncStep.page false true [PacketOut.pkt (samplePacket [1] false)],
   SyncStep.page false true [PacketOut.pkt (samplePacket [3] false),
                             PacketOut.pkt (samplePacket [5] false)]]

/-- A well-formed stream: three headers, five audio packets on two pages, the
last packet flagged end-of-stream on a page flagged end-of-stream. -/
def sampleTrace : List SyncStep :=
  sampleHeaders ++
  [SyncStep.page false true [PacketOut.pkt (samplePacket [0] false),
                             PacketOut.pkt (samplePacket [2] false),
                             PacketOut.pkt (samplePacket [1] false)],
   SyncStep.needData 100,
   SyncStep.page true true [PacketOut.pkt (samplePacket [4] false),
                            PacketOut.pkt (samplePacket [6] true)]]

/-- A stream in which the second and third packet after the headers are not
audio packets: `vorbis_packet_blocksize` returns -135 for them. -/
def notAudioTrace : List SyncStep :=
  sampleHeaders ++
  [SyncStep.page true true [PacketOut.pkt (samplePacket [0] false),
                            PacketOut.pkt (samplePacket [] false),
                            PacketOut.pkt (samplePacket [] true)]]

/-- A library like `sampleLib`, except that `ogg_stream_pageout` has a page ready
whenever a packet is buffered (as with large packets). -/
def eagerLib : Lib :=
  { sampleLib with pageCut := fun _ => 1 }

/-- A packet of 1200 bytes that starts with the given byte. -/
def bigPacket (first : Nat) (e_o_s : Bool) : ogg_packet :=
  samplePacket (first :: List.replicate 1199 0) e_o_s

/-- A stream with one audio page that carries two packets of 1200 bytes, then an
end-of-stream page with a third packet. -/
def twoPacketPage : List SyncStep :=
  sampleHeaders ++
  [SyncStep.page false true [PacketOut.pkt (bigPacket 0 false),
                             PacketOut.pkt (bigPacket 2 false)],
   SyncStep.page true true [PacketOut.pkt (bigPacket 4 true)]]

/-- A machine whose output device takes 100 bytes: less than the first audio
page of `twoPacketPage`, whose body goes to the device at once. -/
def fullEnv : Env := { sampleEnv with room := 100 }

/-- A machine on which no path can be opened for writing. -/
def lockedEnv : Env := { sampleEnv with canOpen := fun _ => false }

/-- A stream that ends without a page flagged end-of-stream: three headers, one
audio page with one packet, then the end of the data. -/
def unterminatedTrace : List SyncStep :=
  sampleHeaders ++
  [SyncStep.page false true [PacketOut.pkt (samplePacket [0] false)], SyncStep.needData 0]

/-- The audio pages, before the last one, of the stream that a second run reads
from the output of a first run on `sampleTrace`: the same packets, on other
pages, with the granule positions and packet numbers that the first run stamped. -/
def rerunPages : List AudioStep :=
  [AudioStep.page [⟨[0], false, 0, 0⟩, ⟨[2], false, 1024, 1⟩],
   AudioStep.page [⟨[1], false, 1600, 2⟩, ⟨[4], false, 2176, 3⟩]]

/-- The last packet of that stream. -/
def rerunLast : ogg_packet := ⟨[6], true, 3200, 4⟩

/-- The stream that the second run reads. -/
def rerunTrace : List SyncStep :=
  [SyncStep.page false true [PacketOut.pkt ⟨[1], false, 0, 0⟩],
   SyncStep.page false true [PacketOut.pkt ⟨[3], false, 0, 1⟩, PacketOut.pkt ⟨[5], false, 0, 2⟩]] ++
  rerunPages.map AudioStep.toSync ++ [SyncStep.page true true [PacketOut.pkt rerunLast]]

/-- A stream whose last page is flagged end-of-stream and carries no packet. -/
def emptyLastPage : List SyncStep :=
  sampleHeaders ++
  [SyncStep.page false true [PacketOut.pkt (samplePacket [0] false),
                             PacketOut.pkt (samplePacket [2] false)],
   SyncStep.page true true []]

/-- The stream that a second run reads from the output of a first run on
`emptyLastPage`: the three header packets as they were copied, then the three
audio packets that the first run wrote, the last of them on the page flagged
end-of-stream. -/
def rereadEmptyLast : List SyncStep :=
  [SyncStep.page false true [PacketOut.pkt (samplePacket [1] false)],
   SyncStep.page false true [PacketOut.pkt (samplePacket [3] false),
                             PacketOut.pkt (samplePacket [5] false)],
   SyncStep.page false true [PacketOut.pkt ⟨[0], false, 0, 0⟩, PacketOut.pkt ⟨[2], false, 1024, 1⟩],
   SyncStep.page true true [PacketOut.pkt ⟨[2], true, 1024, 1⟩]]

/-- A stream like `sampleTrace` in which `ogg_sync_pageout` returns a negative
value once while the headers are read. -/
def headerDesyncTrace : List SyncStep :=
  [SyncStep.page false true [PacketOut.pkt (samplePacket [1] false)],
   SyncStep.desync,
   SyncStep.page false true [PacketOut.pkt (samplePacket [3] false),
                             PacketOut.pkt (samplePacket [5] false)],
   SyncStep.page true true [PacketOut.pkt (samplePacket [0] false),
                            PacketOut.pkt (samplePacket [6] true)]]

/-- A machine whose output device takes 6 bytes. -/
def smallEnv : Env := { sampleEnv with room := 6 }

/-! # Theorems -/

/-! ## Machine arithmetic -/

theorem wrap32_eq (x : Int) (h1 : -2147483648 ≤ x) (h2 : x < 2147483648) : wrap32 x = x := by
  unfold wrap32 wrap
  norm_num
  omega

theorem wrap64_eq (x : Int) (h1 : -9223372036854775808 ≤ x) (h2 : x < 9223372036854775808) :
    wrap64 x = x := by
  unfold wrap64 wrap
  norm_num
  omega

theorem tdiv4_nonneg (x : Int) (h : 0 ≤ x) : Int.tdiv x 4 = x / 4 :=
  Int.tdiv_eq_ediv h (by decide)

theorem tdiv4_neg (x : Int) (h : x < 0) : Int.tdiv x 4 = -((-x) / 4) := by
  have h1 : Int.tdiv (-(-x)) 4 = -(Int.tdiv (-x) 4) := Int.neg_tdiv (-x) 4
  rw [Int.neg_neg] at h1
  rw [h1, tdiv4_nonneg (-x) (by omega)]

theorem tdiv4_bound (x : Int) (h1 : -16384 ≤ x) (h2 : x ≤ 16384) :
    -4096 ≤ Int.tdiv x 4 ∧ Int.tdiv x 4 ≤ 4096 := by
  rcases Int.lt_or_le x 0 with h | h
  · rw [tdiv4_neg x h]; omega
  · rw [tdiv4_nonneg x h]; omega

theorem tdiv4_pos (x : Int) (h : 0 ≤ x) : 0 ≤ Int.tdiv x 4 := by
  rw [tdiv4_nonneg x h]; omega

/-! ## Frame lemmas: what the loops leave alone -/

theorem pageoutLoop_frame (lib : Lib) (fuel : Nat) (s : State) :
    (pageoutLoop lib fuel s).vi = s.vi ∧ (pageoutLoop lib fuel s).lastbs = s.lastbs ∧
    (pageoutLoop lib fuel s).granpos = s.granpos ∧
    (pageoutLoop lib fuel s).stamped = s.stamped ∧
    (pageoutLoop lib fuel s).injected = s.injected ∧
    (pageoutLoop lib fuel s).packet = s.packet ∧
    (pageoutLoop lib fuel s).packetnum = s.packetnum ∧
    (pageoutLoop lib fuel s).headers = s.headers := by
  induction fuel generalizing s with
  | zero => simp [pageoutLoop]
  | succ n ih =>
    unfold pageoutLoop
    cases h : ogg_stream_pageout lib s.os with
    | none => simp
    | some pr =>
      obtain ⟨pg, rest⟩ := pr
      simp only
      split
      · simp
      · simpa using ih _

theorem flushLoop_frame (lib : Lib) (fuel : Nat) (s : State) :
    (flushLoop lib fuel s).vi = s.vi ∧ (flushLoop lib fuel s).lastbs = s.lastbs ∧
    (flushLoop lib fuel s).granpos = s.granpos ∧
    (flushLoop lib fuel s).stamped = s.stamped ∧
    (flushLoop lib fuel s).injected = s.injected ∧
    (flushLoop lib fuel s).packet = s.packet ∧
    (flushLoop lib fuel s).packetnum = s.packetnum ∧
    (flushLoop lib fuel s).headers = s.headers ∧
    (flushLoop lib fuel s).eos = s.eos := by
  induction fuel generalizing s with
  | zero => simp [flushLoop]
  | succ n ih =>
    unfold flushLoop
    cases h : ogg_stream_flush lib s.os with
    | none => simp
    | some pr =>
      obtain ⟨pg, rest⟩ := pr
      simp only
      split
      · simp
      · simpa using ih _

/-! ## The fuel of the page loops is enough

Each page takes at least one buffered packet, so a loop that starts with as much
fuel as there are packets in the buffer ends because no page is left, or because
a write failed, and more fuel gives the same result. -/

theorem pageout_nil (lib : Lib) : ogg_stream_pageout lib [] = none := by
  simp [ogg_stream_pageout]

theorem pageout_shorter (lib : Lib) (os pg rest : List ogg_packet)
    (h : ogg_stream_pageout lib os = some (pg, rest)) : rest.length < os.length := by
  unfold ogg_stream_pageout at h
  simp only at h
  split at h
  · simp at h
  · simp only [Option.some.injEq, Prod.mk.injEq] at h
    rw [← h.2, List.length_drop]
    omega

theorem flush_shorter (lib : Lib) (os pg rest : List ogg_packet)
    (h : ogg_stream_flush lib os = some (pg, rest)) : rest.length < os.length := by
  unfold ogg_stream_flush at h
  simp only at h
  split at h
  · simp at h
  · rename_i hne
    simp only [Option.some.injEq, Prod.mk.injEq] at h
    rw [← h.2, List.length_drop]
    have : 0 < os.length := List.length_pos.2 hne
    omega

theorem pageoutLoop_fuel (lib : Lib) (n m : Nat) (s : State) (hn : s.os.length ≤ n)
    (hm : s.os.length ≤ m) : pageoutLoop lib n s = pageoutLoop lib m s := by
  induction n generalizing m s with
  | zero =>
    have hos : s.os = [] := List.length_eq_zero.1 (Nat.le_zero.1 hn)
    cases m with
    | zero => rfl
    | succ m => simp [pageoutLoop, hos, pageout_nil]
  | succ n ih =>
    cases m with
    | zero =>
      have hos : s.os = [] := List.length_eq_zero.1 (Nat.le_zero.1 hm)
      simp [pageoutLoop, hos, pageout_nil]
    | succ m =>
      unfold pageoutLoop
      cases hp : ogg_stream_pageout lib s.os with
      | none => rfl
      | some pr =>
        obtain ⟨pg, rest⟩ := pr
        have hl := pageout_shorter lib _ _ _ hp
        simp only
        split
        · rfl
        · exact ih m _ (by simp only; omega) (by simp only; omega)

theorem flushLoop_fuel (lib : Lib) (n m : Nat) (s : State) (hn : s.os.length ≤ n)
    (hm : s.os.length ≤ m) : flushLoop lib n s = flushLoop lib m s := by
  induction n generalizing m s with
  | zero =>
    have hos : s.os = [] := List.length_eq_zero.1 (Nat.le_zero.1 hn)
    cases m with
    | zero => rfl
    | succ m => simp [flushLoop, hos, ogg_stream_flush]
  | succ n ih =>
    cases m with
    | zero =>
      have hos : s.os = [] := List.length_eq_zero.1 (Nat.le_zero.1 hm)
      simp [flushLoop, hos, ogg_stream_flush]
    | succ m =>
      unfold flushLoop
      cases hp : ogg_stream_flush lib s.os with
      | none => rfl
      | some pr =>
        obtain ⟨pg, rest⟩ := pr
        have hl := flush_shorter lib _ _ _ hp
        simp only
        split
        · rfl
        · exact ih m _ (by simp only; omega) (by simp only; omega)

theorem flushHeaders_fuel (lib : Lib) (n m : Nat) (s : State) (hn : s.os.length ≤ n)
    (hm : s.os.length ≤ m) : flushHeaders lib n s = flushHeaders lib m s := by
  induction n generalizing m s with
  | zero =>
    have hos : s.os = [] := List.length_eq_zero.1 (Nat.le_zero.1 hn)
    cases m with
    | zero => rfl
    | succ m => simp [flushHeaders, hos, ogg_stream_flush]
  | succ n ih =>
    cases m with
    | zero =>
      have hos : s.os = [] := List.length_eq_zero.1 (Nat.le_zero.1 hm)
      simp [flushHeaders, hos, ogg_stream_flush]
    | succ m =>
      unfold flushHeaders
      cases hp : ogg_stream_flush lib s.os with
      | none => rfl
      | some pr =>
        obtain ⟨pg, rest⟩ := pr
        have hl := flush_shorter lib _ _ _ hp
        simp only
        split
        · rfl
        · exact ih m _ (by simp only; omega) (by simp only; omega)

/-! ## The stamping invariant -/

theorem granules_append (st : Int × Int) (l : List Int) (b : Int) :
    granules st (l ++ [b]) = granules st l ++ [(stepG (l.foldl stepG st) b).2] := by
  induction l generalizing st with
  | nil => simp [granules]
  | cons a l ih => simp [granules, ih]

theorem StampInv.frameS {lib : Lib} {s t : State} (h : StampInv lib s)
    (h1 : t.vi = s.vi) (h2 : t.lastbs = s.lastbs) (h3 : t.granpos = s.granpos)
    (h4 : t.stamped = s.stamped) : StampInv lib t := by
  unfold StampInv State.blocksizes at *
  rw [h1, h2, h3, h4]
  exact h

theorem StampInv.stamp {lib : Lib} {s : State} (h : StampInv lib s) (p : ogg_packet) :
    StampInv lib (stamp lib s p) := by
  obtain ⟨h1, h2⟩ := h
  unfold StampInv State.blocksizes at *
  constructor
  · simp only [Revorb.stamp, List.map_append, List.map_cons, List.map_nil, granules_append, h1]
    rw [← h2]
    simp [stepG]
  · simp only [Revorb.stamp, List.map_append, List.map_cons, List.map_nil, List.foldl_append,
      List.foldl_cons, List.foldl_nil]
    rw [← h2]
    simp [stepG]

theorem StampInv.injectS {lib : Lib} {s : State} (h : StampInv lib s) :
    StampInv lib (inject lib s) := by
  unfold Revorb.inject
  split
  · exact h
  · obtain ⟨a, b, c, d, -⟩ := pageoutLoop_frame lib (s.os.length + 1)
      { s with os := ogg_stream_packetin s.os s.packet, injected := s.injected ++ [s.packet] }
    exact h.frameS a b c d

theorem StampInv.packetLoopS {lib : Lib} (pend : List PacketOut) {s : State}
    (h : StampInv lib s) : StampInv lib (packetLoop lib pend s) := by
  induction pend generalizing s with
  | nil => exact h.frameS rfl rfl rfl rfl
  | cons po rest ih =>
    cases po with
    | hole => exact ih (h.frameS rfl rfl rfl rfl)
    | pkt p => exact ih (h.stamp p).injectS

theorem StampInv.pageLoopS {lib : Lib} (tr : List SyncStep) {s : State}
    (h : StampInv lib s) : StampInv lib (pageLoop lib tr s) := by
  induction tr generalizing s with
  | nil =>
    unfold Revorb.pageLoop
    split <;> exact h.frameS rfl rfl rfl rfl
  | cons ev rest ih =>
    cases ev with
    | needData n =>
      unfold Revorb.pageLoop
      split
      · exact h.frameS rfl rfl rfl rfl
      · split
        · exact ih h
        · exact ih (h.frameS rfl rfl rfl rfl)
    | desync =>
      unfold Revorb.pageLoop
      split
      · exact h.frameS rfl rfl rfl rfl
      · exact ih (h.frameS rfl rfl rfl rfl)
    | page eos acc outs =>
      unfold Revorb.pageLoop
      split
      · exact h.frameS rfl rfl rfl rfl
      · exact ih (StampInv.packetLoopS _ (h.frameS rfl rfl rfl rfl))

theorem StampInv.finishS {lib : Lib} {s : State} (h : StampInv lib s) :
    StampInv lib (finish lib s) := by
  unfold Revorb.finish
  split
  · exact h
  · obtain ⟨a, b, c, d, -⟩ := flushLoop_frame lib
      (ogg_stream_packetin s.os (flagEos s.packet)).length
      { s with packet := flagEos s.packet,
               os := ogg_stream_packetin s.os (flagEos s.packet),
               injected := s.injected ++ [flagEos s.packet] }
    exact h.frameS a b c d

theorem StampInv.granuleLoopS {lib : Lib} {s : State} (h : s.stamped = []) :
    StampInv lib (granuleLoop lib s) := by
  unfold Revorb.granuleLoop
  have h0 : StampInv lib { s with granpos := 0, packetnum := 0, lastbs := 0, eos := 0 } := by
    simp [StampInv, State.blocksizes, h, granules]
  exact (StampInv.pageLoopS _ h0).finishS.frameS rfl rfl rfl rfl

/-! ## copy_headers leaves the variables of the loop alone -/

/-- The fields that `copy_headers` does not touch agree in the two states. -/
def SameLoopVars (s t : State) : Prop :=
  t.stamped = s.stamped ∧ t.injected = s.injected ∧ t.g_failed = s.g_failed ∧
  t.packet = s.packet ∧ t.lastbs = s.lastbs ∧ t.granpos = s.granpos

theorem SameLoopVars.reflV (s : State) : SameLoopVars s s :=
  ⟨rfl, rfl, rfl, rfl, rfl, rfl⟩

theorem SameLoopVars.transV {s t u : State} (h1 : SameLoopVars s t) (h2 : SameLoopVars t u) :
    SameLoopVars s u := by
  unfold SameLoopVars at *
  refine ⟨h2.1.trans h1.1, h2.2.1.trans h1.2.1, h2.2.2.1.trans h1.2.2.1, ?_, ?_, ?_⟩
  · exact h2.2.2.2.1.trans h1.2.2.2.1
  · exact h2.2.2.2.2.1.trans h1.2.2.2.2.1
  · exact h2.2.2.2.2.2.trans h1.2.2.2.2.2

theorem takeHeaders_same (pend : List PacketOut) (i : Nat) (s : State) :
    SameLoopVars s (takeHeaders pend i s).2.2 := by
  induction pend generalizing i s with
  | nil => exact ⟨rfl, rfl, rfl, rfl, rfl, rfl⟩
  | cons po rest ih =>
    cases po with
    | hole =>
      unfold takeHeaders
      split <;> exact ⟨rfl, rfl, rfl, rfl, rfl, rfl⟩
    | pkt p =>
      unfold takeHeaders
      split
      · exact SameLoopVars.transV ⟨rfl, rfl, rfl, rfl, rfl, rfl⟩ (ih _ _)
      · exact ⟨rfl, rfl, rfl, rfl, rfl, rfl⟩

theorem headerLoop_same (tr : List SyncStep) (i : Nat) (s : State) :
    SameLoopVars s (headerLoop tr i s).2 := by
  induction tr generalizing i s with
  | nil =>
    unfold headerLoop
    split <;> exact ⟨rfl, rfl, rfl, rfl, rfl, rfl⟩
  | cons ev rest ih =>
    cases ev with
    | needData n =>
      unfold headerLoop
      split
      · split
        · exact ⟨rfl, rfl, rfl, rfl, rfl, rfl⟩
        · exact ih _ _
      · exact ⟨rfl, rfl, rfl, rfl, rfl, rfl⟩
    | desync =>
      unfold headerLoop
      split
      · exact ih _ _
      · exact ⟨rfl, rfl, rfl, rfl, rfl, rfl⟩
    | page eos acc outs =>
      unfold headerLoop
      split
      · simp only
        split
        · exact (takeHeaders_same _ _ _).transV (ih _ _)
        · exact (takeHeaders_same _ _ _).transV ⟨rfl, rfl, rfl, rfl, rfl, rfl⟩
      · exact ⟨rfl, rfl, rfl, rfl, rfl, rfl⟩

theorem flushHeaders_same (lib : Lib) (fuel : Nat) (s : State) :
    SameLoopVars s (flushHeaders lib fuel s).2 := by
  induction fuel generalizing s with
  | zero => exact ⟨rfl, rfl, rfl, rfl, rfl, rfl⟩
  | succ n ih =>
    unfold flushHeaders
    cases h : ogg_stream_flush lib s.os with
    | none => exact ⟨rfl, rfl, rfl, rfl, rfl, rfl⟩
    | some pr =>
      obtain ⟨pg, rest⟩ := pr
      simp only
      split
      · exact ⟨rfl, rfl, rfl, rfl, rfl, rfl⟩
      · exact SameLoopVars.transV ⟨rfl, rfl, rfl, rfl, rfl, rfl⟩ (ih _)

theorem copy_headers_same (lib : Lib) (s : State) :
    SameLoopVars s (copy_headers lib s).2 := by
  unfold copy_headers
  split
  · split
    · exact ⟨rfl, rfl, rfl, rfl, rfl, rfl⟩
    · split
      · split
        · exact ⟨rfl, rfl, rfl, rfl, rfl, rfl⟩
        · simp only
          split
          · refine SameLoopVars.transV ?_ (flushHeaders_same _ _ _)
            refine SameLoopVars.transV ?_ (headerLoop_same _ _ _)
            exact ⟨rfl, rfl, rfl, rfl, rfl, rfl⟩
          · refine SameLoopVars.transV ?_ (headerLoop_same _ _ _)
            exact ⟨rfl, rfl, rfl, rfl, rfl, rfl⟩
      · exact ⟨rfl, rfl, rfl, rfl, rfl, rfl⟩
  · exact ⟨rfl, rfl, rfl, rfl, rfl, rfl⟩

theorem StampInv.init (lib : Lib) (s : State) (h1 : s.stamped = []) (h2 : s.lastbs = 0)
    (h3 : s.granpos = 0) : StampInv lib s := by
  simp [StampInv, State.blocksizes, h1, h2, h3, granules]

theorem close_badbit (fo : ofstream) : fo.close.badbit = fo.badbit := by
  unfold ofstream.close
  split
  · rfl
  · split <;> rfl

theorem close_data_of_empty (fo : ofstream) (h : fo.pending = []) : fo.close.data = fo.data := by
  unfold ofstream.close
  split
  · rfl
  · split <;> simp [h]

theorem openOutput_not_bad (env : Env) (target : String) :
    (openOutput env target).bad = false := by
  unfold openOutput ofstream.bad ofstream.openFile ofstream.fresh
  split <;> rfl

theorem mainWith_eq (lib : Lib) (env : Env) (ifilename : String) (more : List String)
    (trace : List SyncStep) (garbage : ogg_packet) :
    (mainWith lib env ifilename more trace garbage).exit = 0 ∧
    (mainWith lib env ifilename more trace garbage).st =
      (process lib
        (State.init trace (openOutput env (outputPath ifilename more)) garbage)).closeOutput ∧
    (mainWith lib env ifilename more trace garbage).hdr =
      (copy_headers lib
        (State.init trace (openOutput env (outputPath ifilename more)) garbage)).2 ∧
    (mainWith lib env ifilename more trace garbage).headersOk =
      (copy_headers lib
        (State.init trace (openOutput env (outputPath ifilename more)) garbage)).1 := by
  unfold mainWith
  simp only
  split
  · rename_i h
    rw [openOutput_not_bad] at h
    exact absurd h (by decide)
  · split <;> exact ⟨rfl, rfl, rfl, rfl⟩

/-- The ways a run of `main` ends: without a call of `copy_headers`, or with the
state that `process` leaves. -/
theorem main_cases (lib : Lib) (env : Env) (argv : List String) (trace : List SyncStep)
    (garbage : ogg_packet) :
    ∃ fo, fo.badbit = false ∧
      (((main lib env argv trace garbage).st = State.init trace fo garbage ∧
        (main lib env argv trace garbage).hdr = State.init trace fo garbage ∧
        (main lib env argv trace garbage).headersOk = false) ∨
       ((main lib env argv trace garbage).st =
          (process lib (State.init trace fo garbage)).closeOutput ∧
        (main lib env argv trace garbage).hdr =
          (copy_headers lib (State.init trace fo garbage)).2 ∧
        (main lib env argv trace garbage).headersOk =
          (copy_headers lib (State.init trace fo garbage)).1)) := by
  unfold main
  split
  · rename_i ifilename more
    obtain ⟨-, h1, h2, h3⟩ := mainWith_eq lib env ifilename more trace garbage
    exact ⟨_, openOutput_not_bad env (outputPath ifilename more), Or.inr ⟨h1, h2, h3⟩⟩
  · exact ⟨ofstream.fresh env.room, rfl, Or.inl ⟨rfl, rfl, rfl⟩⟩

theorem process_stampInv (lib : Lib) (s : State) (h1 : s.stamped = []) (h2 : s.lastbs = 0)
    (h3 : s.granpos = 0) : StampInv lib (process lib s) := by
  obtain ⟨a1, -, -, -, a5, a6⟩ := copy_headers_same lib s
  unfold process
  split
  · exact StampInv.granuleLoopS (a1.trans h1)
  · exact StampInv.init _ _ (a1.trans h1) (a5.trans h2) (a6.trans h3)

theorem main_stampInv (lib : Lib) (env : Env) (argv : List String) (trace : List SyncStep)
    (garbage : ogg_packet) : StampInv lib (main lib env argv trace garbage).st := by
  obtain ⟨fo, -, ⟨h, -, -⟩ | ⟨h, -, -⟩⟩ := main_cases lib env argv trace garbage
  · rw [h]; exact StampInv.init _ _ rfl rfl rfl
  · rw [h]; exact (process_stampInv lib _ rfl rfl rfl).frameS rfl rfl rfl rfl

/-! ## The rule on valid block sizes -/

theorem stepG_bound (st : Int × Int) (b : Int) (n : Nat)
    (h1 : -8192 ≤ st.1 ∧ st.1 ≤ 8192) (h2 : -(4096 * (n : Int)) ≤ st.2 ∧ st.2 ≤ 4096 * (n : Int))
    (hb : -8192 ≤ b ∧ b ≤ 8192) (hn : n + 1 ≤ 2 ^ 50) :
    (stepG st b).1 = b ∧
    (stepG st b).2 = (if st.1 ≠ 0 then st.2 + Int.tdiv (st.1 + b) 4 else st.2) ∧
    -(4096 * ((n + 1 : Nat) : Int)) ≤ (stepG st b).2 ∧
    (stepG st b).2 ≤ 4096 * ((n + 1 : Nat) : Int) := by
  have hn2 : ((n : Int)) + 1 ≤ 1125899906842624 := by
    have : (2 : Nat) ^ 50 = 1125899906842624 := by norm_num
    omega
  have e1 : wrap32 b = b := wrap32_eq b (by omega) (by omega)
  have e2 : wrap32 (st.1 + b) = st.1 + b := wrap32_eq _ (by omega) (by omega)
  have hd := tdiv4_bound (st.1 + b) (by omega) (by omega)
  have e3 : wrap64 (st.2 + Int.tdiv (st.1 + b) 4) = st.2 + Int.tdiv (st.1 + b) 4 :=
    wrap64_eq _ (by omega) (by omega)
  unfold stepG
  rw [e1, e2, e3]
  refine ⟨rfl, rfl, ?_, ?_⟩ <;> (simp only []; split <;> push_cast <;> omega)

theorem granules_rule (l : List Int) : ∀ (st : Int × Int) (n k : Nat) (x y g g' : Int),
    (-8192 ≤ st.1 ∧ st.1 ≤ 8192) →
    (-(4096 * (n : Int)) ≤ st.2 ∧ st.2 ≤ 4096 * (n : Int)) →
    n + l.length ≤ 2 ^ 50 → (∀ b ∈ l, ReturnedBlocksize b) →
    l[k]? = some x → l[k + 1]? = some y →
    (granules st l)[k]? = some g → (granules st l)[k + 1]? = some g' →
    g' = g + Int.tdiv (x + y) 4 := by
  induction l with
  | nil => intro st n k x y g g' _ _ _ _ hx; simp at hx
  | cons a l ih =>
    intro st n k x y g g' h1 h2 hn hb hx hy hg hg'
    have ha : ReturnedBlocksize a := hb a (List.mem_cons_self _ _)
    have hl : ∀ b ∈ l, ReturnedBlocksize b := fun b m => hb b (List.mem_cons_of_mem _ m)
    simp only [List.length_cons] at hn
    obtain ⟨s1, s2, s3, s4⟩ := stepG_bound st a n h1 h2 ha.2 (by omega)
    cases k with
    | zero =>
      cases l with
      | nil => simp at hy
      | cons c l =>
        have hc : ReturnedBlocksize c := hl c (List.mem_cons_self _ _)
        simp only [List.length_cons] at hn
        obtain ⟨t1, t2, -, -⟩ := stepG_bound (stepG st a) c (n + 1) (by rw [s1]; exact ha.2)
          ⟨s3, s4⟩ hc.2 (by omega)
        simp only [granules, List.getElem?_cons_zero, List.getElem?_cons_succ, zero_add,
          Option.some.injEq] at hx hy hg hg'
        subst hx hy hg hg'
        rw [t2, s1, if_pos ha.1]
    | succ k =>
      simp only [granules, List.getElem?_cons_succ] at hx hy hg hg'
      exact ih (stepG st a) (n + 1) k x y g g' (by rw [s1]; exact ha.2) ⟨s3, s4⟩ (by omega) hl
        hx hy hg hg'

/-- C1. In the granule recomputation loop of main, when the block sizes of the
packets are values that vorbis_packet_blocksize returns (never zero, magnitude
at most 8192) and at most 2^50 packets are stamped: the first stamped packet
carries granule position 0, and the position stamped on packet k+1 is the
position stamped on packet k plus (b_k + b_{k+1}) / 4 in the integer division
of C. -/
theorem granule_increment_rule (lib : Lib) (env : Env) (argv : List String)
    (trace : List SyncStep) (garbage : ogg_packet)
    (hb : ∀ p ∈ (main lib env argv trace garbage).st.stamped,
      ReturnedBlocksize (lib.blocksize (main lib env argv trace garbage).st.vi p.packet))
    (hn : (main lib env argv trace garbage).st.stamped.length ≤ 2 ^ 50) :
    (∀ p, (main lib env argv trace garbage).st.stamped[0]? = some p → p.granulepos = 0) ∧
    (∀ k p q, (main lib env argv trace garbage).st.stamped[k]? = some p →
      (main lib env argv trace garbage).st.stamped[k + 1]? = some q →
      q.granulepos = p.granulepos +
        Int.tdiv (lib.blocksize (main lib env argv trace garbage).st.vi p.packet +
                  lib.blocksize (main lib env argv trace garbage).st.vi q.packet) 4) := by
  obtain ⟨h1, -⟩ := main_stampInv lib env argv trace garbage
  generalize (main lib env argv trace garbage).st = s at *
  unfold State.blocksizes at h1
  constructor
  · intro p hp
    cases hs : s.stamped with
    | nil => rw [hs] at hp; simp at hp
    | cons a l =>
      rw [hs] at hp h1
      simp only [List.getElem?_cons_zero, Option.some.injEq] at hp
      subst hp
      simp only [List.map_cons, granules, List.cons.injEq] at h1
      rw [h1.1]
      simp [stepG]
  · intro k p q hp hq
    have hl : ∀ b ∈ s.stamped.map (fun p => lib.blocksize s.vi p.packet),
        ReturnedBlocksize b := by
      intro b hm
      obtain ⟨r, hr, rfl⟩ := List.mem_map.1 hm
      exact hb r hr
    refine granules_rule (s.stamped.map (fun p => lib.blocksize s.vi p.packet)) (0, 0) 0 k _ _ _ _
      (by simp) (by simp) (by simpa using hn) hl ?_ ?_ ?_ ?_
    · simp [List.getElem?_map, hp]
    · simp [List.getElem?_map, hq]
    · rw [← h1]; simp [List.getElem?_map, hp]
    · rw [← h1]; simp [List.getElem?_map, hq]

theorem granule_increment_rule_witness :
    (∀ p ∈ (main sampleLib sampleEnv ["revorb", "a.ogg"] sampleTrace
        (samplePacket [9] false)).st.stamped,
      ReturnedBlocksize (sampleLib.blocksize
        (main sampleLib sampleEnv ["revorb", "a.ogg"] sampleTrace
          (samplePacket [9] false)).st.vi p.packet)) ∧
    (main sampleLib sampleEnv ["revorb", "a.ogg"] sampleTrace
      (samplePacket [9] false)).st.stamped.length = 5 ∧
    ((∀ p, (main sampleLib sampleEnv ["revorb", "a.ogg"] sampleTrace
        (samplePacket [9] false)).st.stamped[0]? = some p → p.granulepos = 0) ∧
     (∀ k p q,
      (main sampleLib sampleEnv ["revorb", "a.ogg"] sampleTrace
        (samplePacket [9] false)).st.stamped[k]? = some p →
      (main sampleLib sampleEnv ["revorb", "a.ogg"] sampleTrace
        (samplePacket [9] false)).st.stamped[k + 1]? = some q →
      q.granulepos = p.granulepos +
        Int.tdiv (sampleLib.blocksize (main sampleLib sampleEnv ["revorb", "a.ogg"] sampleTrace
                    (samplePacket [9] false)).st.vi p.packet +
                  sampleLib.blocksize (main sampleLib sampleEnv ["revorb", "a.ogg"] sampleTrace
                    (samplePacket [9] false)).st.vi q.packet) 4)) :=
  ⟨by decide, by decide,
   granule_increment_rule sampleLib sampleEnv ["revorb", "a.ogg"] sampleTrace
      (samplePacket [9] false) (by decide) (by decide)⟩

/-! ## Monotonicity -/

theorem granules_ge (l : List Int) : ∀ (st : Int × Int) (n : Nat),
    (0 ≤ st.1 ∧ st.1 ≤ 8192) →
    (-(4096 * (n : Int)) ≤ st.2 ∧ st.2 ≤ 4096 * (n : Int)) →
    n + l.length ≤ 2 ^ 50 → (∀ b ∈ l, AudioBlocksize b) →
    ∀ g ∈ granules st l, st.2 ≤ g := by
  induction l with
  | nil => intro st n _ _ _ _ g hg; simp [granules] at hg
  | cons a l ih =>
    intro st n h1 h2 hn hb g hg
    have ha : AudioBlocksize a := hb a (List.mem_cons_self _ _)
    have hl : ∀ b ∈ l, AudioBlocksize b := fun b m => hb b (List.mem_cons_of_mem _ m)
    simp only [List.length_cons] at hn
    obtain ⟨s1, s2, s3, s4⟩ := stepG_bound st a n ⟨by omega, h1.2⟩ h2 ⟨by have := ha.1; omega, ha.2⟩
      (by omega)
    have hstep : st.2 ≤ (stepG st a).2 := by
      rw [s2]
      split
      · have := tdiv4_pos (st.1 + a) (by have := ha.1; omega)
        omega
      · exact le_refl _
    simp only [granules, List.mem_cons] at hg
    rcases hg with rfl | hg
    · exact hstep
    · exact le_trans hstep
        (ih (stepG st a) (n + 1) (by rw [s1]; exact ha) ⟨s3, s4⟩ (by omega) hl g hg)

theorem granules_sorted (l : List Int) : ∀ (st : Int × Int) (n : Nat),
    (0 ≤ st.1 ∧ st.1 ≤ 8192) →
    (-(4096 * (n : Int)) ≤ st.2 ∧ st.2 ≤ 4096 * (n : Int)) →
    n + l.length ≤ 2 ^ 50 → (∀ b ∈ l, AudioBlocksize b) →
    (granules st l).Pairwise (fun x y => x ≤ y) := by
  induction l with
  | nil => intro st n _ _ _ _; simp [granules]
  | cons a l ih =>
    intro st n h1 h2 hn hb
    have ha : AudioBlocksize a := hb a (List.mem_cons_self _ _)
    have hl : ∀ b ∈ l, AudioBlocksize b := fun b m => hb b (List.mem_cons_of_mem _ m)
    simp only [List.length_cons] at hn
    obtain ⟨s1, s2, s3, s4⟩ := stepG_bound st a n ⟨by omega, h1.2⟩ h2 ⟨by have := ha.1; omega, ha.2⟩
      (by omega)
    simp only [granules, List.pairwise_cons]
    exact ⟨granules_ge l (stepG st a) (n + 1) (by rw [s1]; exact ha) ⟨s3, s4⟩ (by omega) hl,
      ih (stepG st a) (n + 1) (by rw [s1]; exact ha) ⟨s3, s4⟩ (by omega) hl⟩

/-- C2, as stated, fails: when vorbis_packet_blocksize returns the error code
-135 for the second and third packet (block sizes 2048, -135, -135), the stamped
granule positions are 0, 478, 411. -/
theorem granule_positions_decrease_on_error_codes :
    (main sampleLib sampleEnv ["revorb", "a.ogg"] notAudioTrace
      (samplePacket [9] false)).st.stamped.map (fun p => p.granulepos) = [0, 478, 411] ∧
    ¬ (main sampleLib sampleEnv ["revorb", "a.ogg"] notAudioTrace
      (samplePacket [9] false)).st.stamped.Pairwise
        (fun p q => p.granulepos ≤ q.granulepos) := by
  decide

/-- C2, amended. When every stamped packet has a block size that is not negative
(at most 8192) and at most 2^50 packets are stamped, the granule positions
stamped by the loop of main are non-decreasing in processing order. -/
theorem granule_positions_monotone (lib : Lib) (env : Env) (argv : List String)
    (trace : List SyncStep) (garbage : ogg_packet)
    (hb : ∀ p ∈ (main lib env argv trace garbage).st.stamped,
      AudioBlocksize (lib.blocksize (main lib env argv trace garbage).st.vi p.packet))
    (hn : (main lib env argv trace garbage).st.stamped.length ≤ 2 ^ 50) :
    (main lib env argv trace garbage).st.stamped.Pairwise
      (fun p q => p.granulepos ≤ q.granulepos) := by
  obtain ⟨h1, -⟩ := main_stampInv lib env argv trace garbage
  generalize (main lib env argv trace garbage).st = s at *
  unfold State.blocksizes at h1
  have hl : ∀ b ∈ s.stamped.map (fun p => lib.blocksize s.vi p.packet), AudioBlocksize b := by
    intro b hm
    obtain ⟨r, hr, rfl⟩ := List.mem_map.1 hm
    exact hb r hr
  have key := granules_sorted (s.stamped.map (fun p => lib.blocksize s.vi p.packet)) (0, 0) 0
    (by simp) (by simp) (by simpa using hn) hl
  rw [← h1, List.pairwise_map] at key
  exact key

theorem granule_positions_monotone_witness :
    (∀ p ∈ (main sampleLib sampleEnv ["revorb", "a.ogg", "b.ogg"] sampleTrace
        (samplePacket [9] false)).st.stamped,
      AudioBlocksize (sampleLib.blocksize
        (main sampleLib sampleEnv ["revorb", "a.ogg", "b.ogg"] sampleTrace
          (samplePacket [9] false)).st.vi p.packet)) ∧
    (main sampleLib sampleEnv ["revorb", "a.ogg", "b.ogg"] sampleTrace
      (samplePacket [9] false)).st.stamped.map (fun p => p.granulepos) =
        [0, 1024, 1600, 2176, 3200] ∧
    (main sampleLib sampleEnv ["revorb", "a.ogg", "b.ogg"] sampleTrace
      (samplePacket [9] false)).st.stamped.Pairwise
        (fun p q => p.granulepos ≤ q.granulepos) :=
  ⟨by decide, by decide,
   granule_positions_monotone sampleLib sampleEnv ["revorb", "a.ogg", "b.ogg"] sampleTrace
      (samplePacket [9] false) (by decide) (by decide)⟩

/-! ## Exit codes -/

/-- C7. The exit code of main is 1 when no input argument is given and 0 in
every other case: a failure to open the output raises failbit, the test
`fo.bad()` of lines 153 and 161 reads badbit, and exit code 2 is never
returned. -/
theorem main_exit_code (lib : Lib) (env : Env) (argv : List String)
    (trace : List SyncStep) (garbage : ogg_packet) :
    (main lib env argv trace garbage).exit = if argv.length < 2 then 1 else 0 := by
  unfold main
  split
  · rw [(mainWith_eq _ _ _ _ _ _).1]
    rw [if_neg (by simp)]
  · rename_i h
    match argv, h with
    | [], _ => rfl
    | [_], _ => rfl
    | _ :: i :: more, h => exact absurd rfl (h _ i more)

/-- The run `revorb a.ogg b.ogg` on a machine where `b.ogg` cannot be opened:
no message, exit code 0, every write of the pass ignored by the stream. -/
theorem main_output_not_opened :
    (main sampleLib lockedEnv ["revorb", "a.ogg", "b.ogg"] sampleTrace
      (samplePacket [9] false)).exit = 0 ∧
    (main sampleLib lockedEnv ["revorb", "a.ogg", "b.ogg"] sampleTrace
      (samplePacket [9] false)).err = [] ∧
    (main sampleLib lockedEnv ["revorb", "a.ogg", "b.ogg"] sampleTrace
      (samplePacket [9] false)).st.fo.data = [] ∧
    (main sampleLib lockedEnv ["revorb", "a.ogg", "b.ogg"] sampleTrace
      (samplePacket [9] false)).st.g_failed = false := by
  decide

/-- The run `revorb a.ogg` on a machine where `a.ogg.tmp` cannot be opened: the
failure flag stays down, so line 277 removes `a.ogg`; the rename then fails and
the file is gone. -/
theorem main_temporary_not_opened :
    (main sampleLib lockedEnv ["revorb", "a.ogg"] sampleTrace
      (samplePacket [9] false)).exit = 0 ∧
    (main sampleLib lockedEnv ["revorb", "a.ogg"] sampleTrace
      (samplePacket [9] false)).st.g_failed = false ∧
    (main sampleLib lockedEnv ["revorb", "a.ogg"] sampleTrace
      (samplePacket [9] false)).st.fo.badbit = false ∧
    (main sampleLib lockedEnv ["revorb", "a.ogg"] sampleTrace
      (samplePacket [9] false)).ops =
        [FsOp.remove "a.ogg", FsOp.rename "a.ogg.tmp" "a.ogg"] ∧
    (main sampleLib lockedEnv ["revorb", "a.ogg"] sampleTrace
      (samplePacket [9] false)).err = [Msg.cannotPutBack] ∧
    (main sampleLib lockedEnv ["revorb", "a.ogg"] sampleTrace
      (samplePacket [9] false)).files "a.ogg" = none := by
  decide

/-! ## Explicit output: the input file -/

/-- C6, as stated, fails: in the run `revorb a.ogg a.ogg` the output stream is
opened on the input path, which empties the file; the reads then deliver
nothing, and the file that held bytes 1, 2, 3 is left empty. -/
theorem explicit_output_on_input_path_empties_input :
    sampleEnv.files "a.ogg" = some [1, 2, 3] ∧
    (main sampleLib sampleEnv ["revorb", "a.ogg", "a.ogg"] []
      (samplePacket [9] false)).files "a.ogg" = some [] := by
  decide

/-- C6, amended. In explicit-output mode, when the output path differs from the
input path, the content of the input file after main returns equals its content
before the run, whether the run succeeds or fails. -/
theorem explicit_output_keeps_input (lib : Lib) (env : Env) (prog ifilename output : String)
    (rest : List String) (trace : List SyncStep) (garbage : ogg_packet)
    (h : output ≠ ifilename) :
    (main lib env (prog :: ifilename :: output :: rest) trace garbage).files ifilename =
      env.files ifilename := by
  have h2 : ifilename ≠ output := fun e => h e.symm
  unfold main mainWith
  simp only [outputPath, openOutput_not_bad, List.length_cons]
  simp only [Bool.false_eq_true, if_false, Nat.succ_ne_zero, Nat.add_one_ne_zero]
  split <;> simp [Files.set, h2]

theorem explicit_output_keeps_input_witness :
    "b.ogg" ≠ "a.ogg" ∧
    (main sampleLib sampleEnv ["revorb", "a.ogg", "b.ogg"] sampleTrace
      (samplePacket [9] false)).files "a.ogg" = sampleEnv.files "a.ogg" :=
  ⟨by decide,
   explicit_output_keeps_input sampleLib sampleEnv "revorb" "a.ogg" "b.ogg" [] sampleTrace
     (samplePacket [9] false) (by decide)⟩

/-! ## A failed write in the loop -/

set_option maxRecDepth 100000 in
/-- C9. A page of the input carries two packets of 1200 bytes, a page is ready
after each injected packet, and the device takes 100 bytes.  The write of the
body of the first audio page fails (fourth call of write) and raises badbit;
the loop then stamps and injects the second packet of the page and calls write
a fifth time, printing its message twice, before it ends. -/
theorem write_failure_does_not_stop_packet_loop :
    (main eagerLib fullEnv ["revorb", "a.ogg", "b.ogg"] twoPacketPage
      (samplePacket [9] false)).headersOk = true ∧
    (main eagerLib fullEnv ["revorb", "a.ogg", "b.ogg"] twoPacketPage
      (samplePacket [9] false)).hdr.fo.calls = 2 ∧
    (main eagerLib fullEnv ["revorb", "a.ogg", "b.ogg"] twoPacketPage
      (samplePacket [9] false)).st.err = [Msg.unableToWritePage, Msg.unableToWritePage] ∧
    (main eagerLib fullEnv ["revorb", "a.ogg", "b.ogg"] twoPacketPage
      (samplePacket [9] false)).st.injected.map (fun p => (p.packet.take 1, p.granulepos)) =
        [([0], 0), ([2], 1024)] ∧
    (main eagerLib fullEnv ["revorb", "a.ogg", "b.ogg"] twoPacketPage
      (samplePacket [9] false)).st.fo.calls = 5 ∧
    (main eagerLib fullEnv ["revorb", "a.ogg", "b.ogg"] twoPacketPage
      (samplePacket [9] false)).st.fo.badbit = true ∧
    (main eagerLib fullEnv ["revorb", "a.ogg", "b.ogg"] twoPacketPage
      (samplePacket [9] false)).st.g_failed = true := by
  decide

/-! ## The failure flag -/

theorem writePage_not_bad (lib : Lib) (fo : ofstream) (pg : List ogg_packet)
    (h : ¬ (writePage lib fo pg).bad = true) : (writePage lib fo pg).fo.badbit = false := by
  unfold writePage ofstream.bad at *
  by_cases h1 : (fo.write lib (lib.header pg)).badbit = true
  · simp [h1] at h
  · simp only [h1, if_false] at h ⊢
    simpa using h

theorem FlagInv.step {s t : State} (h : FlagInv s) (hg : s.g_failed = true → t.g_failed = true)
    (he : t.err = s.err) (hb : t.fo.badbit = false) : FlagInv t := by
  rcases h with h | ⟨h1, h2, -⟩
  · exact Or.inl (hg h)
  · exact Or.inr ⟨by rw [he]; exact h1, by rw [he]; exact h2, hb⟩

theorem FlagInv.pageoutLoopF (lib : Lib) (fuel : Nat) {s : State} (h : FlagInv s) :
    FlagInv (pageoutLoop lib fuel s) := by
  induction fuel generalizing s with
  | zero => exact h
  | succ n ih =>
    unfold Revorb.pageoutLoop
    cases hp : ogg_stream_pageout lib s.os with
    | none => exact h
    | some pr =>
      obtain ⟨pg, rest⟩ := pr
      simp only
      split
      · exact Or.inl rfl
      · rename_i hw
        exact ih (h.step (fun x => x) rfl (writePage_not_bad _ _ _ hw))

theorem FlagInv.flushLoop (lib : Lib) (fuel : Nat) {s : State} (h : FlagInv s) :
    FlagInv (flushLoop lib fuel s) := by
  induction fuel generalizing s with
  | zero => exact h
  | succ n ih =>
    unfold Revorb.flushLoop
    cases hp : ogg_stream_flush lib s.os with
    | none => exact h
    | some pr =>
      obtain ⟨pg, rest⟩ := pr
      simp only
      split
      · exact Or.inl rfl
      · rename_i hw
        exact ih (h.step (fun x => x) rfl (writePage_not_bad _ _ _ hw))

theorem FlagInv.frameF {s t : State} (h : FlagInv s) (hg : t.g_failed = s.g_failed)
    (he : t.err = s.err) (hb : t.fo = s.fo) : FlagInv t := by
  unfold FlagInv at *
  rw [hg, he, hb]
  exact h

theorem FlagInv.injectF (lib : Lib) {s : State} (h : FlagInv s) : FlagInv (inject lib s) := by
  unfold Revorb.inject
  split
  · exact h
  · refine FlagInv.pageoutLoopF _ _ ?_
    exact h.frameF rfl rfl rfl

theorem FlagInv.packetLoopF (lib : Lib) (pend : List PacketOut) {s : State} (h : FlagInv s) :
    FlagInv (packetLoop lib pend s) := by
  induction pend generalizing s with
  | nil => exact h.frameF rfl rfl rfl
  | cons po rest ih =>
    cases po with
    | hole => exact ih (Or.inl rfl)
    | pkt p =>
      refine ih (FlagInv.injectF lib ?_)
      exact h.frameF rfl rfl rfl

theorem FlagInv.pageLoopF (lib : Lib) (tr : List SyncStep) {s : State} (h : FlagInv s) :
    FlagInv (pageLoop lib tr s) := by
  induction tr generalizing s with
  | nil =>
    unfold Revorb.pageLoop
    split <;> exact h.frameF rfl rfl rfl
  | cons ev rest ih =>
    cases ev with
    | needData n =>
      unfold Revorb.pageLoop
      split
      · exact h.frameF rfl rfl rfl
      · split
        · exact ih h
        · refine ih ?_
          exact h.frameF rfl rfl rfl
    | desync =>
      unfold Revorb.pageLoop
      split
      · exact h.frameF rfl rfl rfl
      · exact ih (Or.inl rfl)
    | page eos acc outs =>
      unfold Revorb.pageLoop
      split
      · exact h.frameF rfl rfl rfl
      · refine ih (FlagInv.packetLoopF _ _ ?_)
        exact h.frameF rfl rfl rfl

theorem FlagInv.finishF (lib : Lib) {s : State} (h : FlagInv s) : FlagInv (finish lib s) := by
  unfold Revorb.finish
  split
  · exact h
  · refine FlagInv.frameF (FlagInv.flushLoop lib _ ?_) rfl rfl rfl
    exact h.frameF rfl rfl rfl

theorem FlagInv.granuleLoopF (lib : Lib) {s : State} (h : FlagInv s) :
    FlagInv (granuleLoop lib s) := by
  unfold Revorb.granuleLoop
  refine FlagInv.frameF (FlagInv.finishF lib (FlagInv.pageLoopF lib _ ?_)) rfl rfl rfl
  exact h.frameF rfl rfl rfl

/-! ## What a successful header stage leaves -/

theorem takeHeaders_ok (pend : List PacketOut) (i : Nat) (s : State)
    (hok : (takeHeaders pend i s).1 = true) (hinj : s.injected = []) (h : OutInv s) :
    OutInv (takeHeaders pend i s).2.2 ∧ (takeHeaders pend i s).2.2.err = s.err ∧
    (takeHeaders pend i s).2.2.fo = s.fo := by
  induction pend generalizing i s with
  | nil => exact ⟨h, rfl, rfl⟩
  | cons po rest ih =>
    cases po with
    | hole =>
      unfold takeHeaders at hok ⊢
      split
      · rename_i hi
        simp [hi] at hok
      · exact ⟨h, rfl, rfl⟩
    | pkt p =>
      unfold takeHeaders at hok ⊢
      split
      · rename_i hi
        simp only [hi, if_true] at hok
        refine ih _ _ hok hinj ?_
        obtain ⟨h1, h2⟩ := h
        refine ⟨by simp [h1], fun hl => ?_⟩
        have := h2 hl
        simp only [hinj, List.append_nil, ogg_stream_packetin] at this ⊢
        rw [← List.append_assoc, this]
      · exact ⟨h, rfl, rfl⟩

theorem headerLoop_ok (tr : List SyncStep) (i : Nat) (s : State)
    (hok : (headerLoop tr i s).1 = true) (hinj : s.injected = []) (h : OutInv s) :
    OutInv (headerLoop tr i s).2 ∧ (headerLoop tr i s).2.err = s.err ∧
    (headerLoop tr i s).2.fo = s.fo := by
  induction tr generalizing i s with
  | nil =>
    unfold headerLoop at hok ⊢
    split
    · rename_i hi; simp [hi] at hok
    · exact ⟨h, rfl, rfl⟩
  | cons ev rest ih =>
    cases ev with
    | needData n =>
      unfold headerLoop at hok ⊢
      split
      · rename_i hi
        simp only [hi, if_true] at hok
        split
        · rename_i hn; simp [hn] at hok
        · rename_i hn
          simp only [hn, if_false] at hok
          exact ih _ _ hok hinj h
      · exact ⟨h, rfl, rfl⟩
    | desync =>
      unfold headerLoop at hok ⊢
      split
      · rename_i hi
        simp only [hi, if_true] at hok
        exact ih _ _ hok hinj h
      · exact ⟨h, rfl, rfl⟩
    | page eos acc outs =>
      unfold headerLoop at hok ⊢
      split
      · rename_i hi
        simp only [hi, if_true] at hok
        simp only at hok ⊢
        split
        · rename_i ht
          simp only [ht, if_true] at hok
          obtain ⟨t1, t2, t3⟩ := takeHeaders_ok _ i s ht hinj h
          have tinj : (takeHeaders (ogg_stream_pagein s.is acc outs) i s).2.2.injected = [] :=
            ((takeHeaders_same _ _ _).2.1).trans hinj
          obtain ⟨u1, u2, u3⟩ := ih _ _ hok tinj t1
          exact ⟨u1, u2.trans t2, u3.trans t3⟩
        · rename_i ht
          simp [ht] at hok
      · exact ⟨h, rfl, rfl⟩

theorem take_append_drop_eq (n : Nat) (l : List ogg_packet) : l.take n ++ l.drop n = l :=
  List.take_append_drop n l

theorem flushHeaders_ok (lib : Lib) (fuel : Nat) (s : State)
    (hok : (flushHeaders lib fuel s).1 = true) (h : OutInv s) (hb : s.fo.badbit = false)
    (hf : s.os.length ≤ fuel) :
    OutInv (flushHeaders lib fuel s).2 ∧ (flushHeaders lib fuel s).2.err = s.err ∧
    (flushHeaders lib fuel s).2.fo.badbit = false ∧ (flushHeaders lib fuel s).2.os = [] := by
  induction fuel generalizing s with
  | zero =>
    exact ⟨h, rfl, hb, List.length_eq_zero.1 (Nat.le_zero.1 hf)⟩
  | succ n ih =>
    unfold flushHeaders at hok ⊢
    cases hp : ogg_stream_flush lib s.os with
    | none =>
      refine ⟨h, rfl, hb, ?_⟩
      unfold ogg_stream_flush at hp
      simp only at hp
      split at hp
      · assumption
      · simp at hp
    | some pr =>
      obtain ⟨pg, rest⟩ := pr
      rw [hp] at hok
      simp only at hok ⊢
      split
      · rename_i hw
        simp [hw] at hok
      · rename_i hw
        simp only [hw] at hok
        unfold ogg_stream_flush at hp
        simp only at hp
        split at hp
        · simp at hp
        · rename_i hne
          simp only [Option.some.injEq, Prod.mk.injEq] at hp
          obtain ⟨hpg, hrest⟩ := hp
          have hlen : rest.length ≤ n := by
            rw [← hrest, List.length_drop]
            have : 0 < s.os.length := List.length_pos.2 hne
            omega
          have hcat : pg ++ rest = s.os := by
            rw [← hpg, ← hrest]; exact take_append_drop_eq _ _
          obtain ⟨u1, u2, u3, u4⟩ := ih _ hok (by
            obtain ⟨h1, h2⟩ := h
            refine ⟨h1, fun hl => ?_⟩
            simp only [Bool.or_eq_false_iff, Bool.not_eq_false'] at hl
            simp only [hl.2, if_true, List.append_assoc, hcat]
            exact h2 hl.1) (writePage_not_bad _ _ _ hw) hlen
          exact ⟨u1, u2, u3, u4⟩

theorem copy_headers_ok (lib : Lib) (trace : List SyncStep) (fo : ofstream)
    (garbage : ogg_packet) (hb : fo.badbit = false)
    (hok : (copy_headers lib (State.init trace fo garbage)).1 = true) :
    OutInv (copy_headers lib (State.init trace fo garbage)).2 ∧
    (copy_headers lib (State.init trace fo garbage)).2.err = [] ∧
    (copy_headers lib (State.init trace fo garbage)).2.fo.badbit = false ∧
    (copy_headers lib (State.init trace fo garbage)).2.os = [] := by
  unfold copy_headers at hok ⊢
  split
  · rename_i e acc outs rest htr
    simp only [htr] at hok
    split
    · rename_i hacc; simp [hacc] at hok
    · rename_i hacc
      simp only [hacc, if_false] at hok
      split
      · rename_i p more
        simp only at hok ⊢
        split
        · rename_i hh; simp [hh] at hok
        · rename_i hh
          simp only [hh, if_false] at hok
          split
          · rename_i hl
            simp only [hl, if_true] at hok
            obtain ⟨t1, t2, t3⟩ := headerLoop_ok _ 0 _ hl rfl
              (by simp [OutInv, State.init, ogg_stream_packetin])
            obtain ⟨u1, u2, u3, u4⟩ := flushHeaders_ok lib _ _ hok t1
              (by rw [t3]; exact hb) (le_refl _)
            exact ⟨u1, u2.trans t2, u3, u4⟩
          · rename_i hl
            simp [hl] at hok
      · simp at hok
  · simp at hok

theorem process_flagInv (lib : Lib) (trace : List SyncStep) (fo : ofstream)
    (garbage : ogg_packet) (hb : fo.badbit = false) :
    FlagInv (process lib (State.init trace fo garbage)) := by
  unfold process
  split
  · rename_i hok
    obtain ⟨-, h2, h3, -⟩ := copy_headers_ok lib trace fo garbage hb hok
    exact FlagInv.granuleLoopF lib (Or.inr ⟨by simp [h2], by simp [h2], h3⟩)
  · exact Or.inl rfl

theorem tmp_ne (ifilename : String) : ifilename ++ ".tmp" ≠ ifilename := by
  intro h
  have := congrArg String.length h
  rw [String.length_append] at this
  have h4 : (".tmp" : String).length = 4 := by decide
  omega

theorem in_place_flagged (lib : Lib) (env : Env) (ifilename : String)
    (trace : List SyncStep) (garbage : ogg_packet)
    (hg : (process lib (State.init trace (openOutput env (outputPath ifilename []))
      garbage)).g_failed = true) :
    (mainWith lib env ifilename [] trace garbage).ops =
      [FsOp.remove (ifilename ++ ".tmp")] ∧
    (mainWith lib env ifilename [] trace garbage).files ifilename = env.files ifilename := by
  have hne : ifilename ≠ ifilename ++ ".tmp" := fun e => tmp_ne ifilename e.symm
  have ho : outputPath ifilename [] = ifilename ++ ".tmp" := rfl
  rw [ho] at hg
  unfold mainWith
  simp only [openOutput_not_bad, ho, List.length_nil, putBack, State.closeOutput, hg]
  simp only [Bool.false_eq_true, if_false, if_true]
  refine ⟨trivial, ?_⟩
  split <;> simp [Files.set, hne]

/-- C5, as stated, fails, in three in-place runs that leave the failure flag
down and so remove the original file and rename the temporary file.
* No byte reaches the output: `a.ogg.tmp` cannot be opened, every write is
  ignored by the stream (failbit, not badbit); the rename fails, the file is gone.
* The device takes 6 of the 12 bytes: the pages are small and stay in the buffer
  of the stream, `bad()` is false after every write, and the loss happens at
  `fo.close()`, which is not tested; the original is replaced by 6 bytes.
* `ogg_sync_pageout` returns a negative value while the headers are read: line 83
  only loops, nothing is reported, the original is replaced. -/
theorem in_place_unseen_failures_replace_original :
    ((main sampleLib lockedEnv ["revorb", "a.ogg"] sampleTrace
        (samplePacket [9] false)).st.lost = true ∧
     (main sampleLib lockedEnv ["revorb", "a.ogg"] sampleTrace
        (samplePacket [9] false)).st.g_failed = false ∧
     (main sampleLib lockedEnv ["revorb", "a.ogg"] sampleTrace
        (samplePacket [9] false)).ops =
          [FsOp.remove "a.ogg", FsOp.rename "a.ogg.tmp" "a.ogg"] ∧
     (main sampleLib lockedEnv ["revorb", "a.ogg"] sampleTrace
        (samplePacket [9] false)).files "a.ogg" = none) ∧
    ((main sampleLib smallEnv ["revorb", "a.ogg"] sampleTrace
        (samplePacket [9] false)).st.lost = true ∧
     (main sampleLib smallEnv ["revorb", "a.ogg"] sampleTrace
        (samplePacket [9] false)).st.fo.badbit = false ∧
     (main sampleLib smallEnv ["revorb", "a.ogg"] sampleTrace
        (samplePacket [9] false)).st.g_failed = false ∧
     (main sampleLib smallEnv ["revorb", "a.ogg"] sampleTrace
        (samplePacket [9] false)).ops =
          [FsOp.remove "a.ogg", FsOp.rename "a.ogg.tmp" "a.ogg"] ∧
     smallEnv.files "a.ogg" = some [1, 2, 3] ∧
     (main sampleLib smallEnv ["revorb", "a.ogg"] sampleTrace
        (samplePacket [9] false)).files "a.ogg" = some [3, 1, 3, 5, 2, 0]) ∧
    ((main sampleLib sampleEnv ["revorb", "a.ogg"] headerDesyncTrace
        (samplePacket [9] false)).headersOk = true ∧
     (main sampleLib sampleEnv ["revorb", "a.ogg"] headerDesyncTrace
        (samplePacket [9] false)).st.err = [] ∧
     (main sampleLib sampleEnv ["revorb", "a.ogg"] headerDesyncTrace
        (samplePacket [9] false)).st.g_failed = false ∧
     (main sampleLib sampleEnv ["revorb", "a.ogg"] headerDesyncTrace
        (samplePacket [9] false)).ops =
          [FsOp.remove "a.ogg", FsOp.rename "a.ogg.tmp" "a.ogg"] ∧
     (main sampleLib sampleEnv ["revorb", "a.ogg"] headerDesyncTrace
        (samplePacket [9] false)).files "a.ogg" = some [3, 1, 3, 5, 2, 0, 6]) := by
  decide

/-- C5, amended. In in-place mode, when copy_headers returns false, or the loop
of main reports a page-level or packet-level decode error (the warnings of
lines 200 and 212), or a write has made the output stream report bad(), main
issues exactly one file operation, the removal of the temporary file, and the
content of the original file is what it was before the run. -/
theorem in_place_failure_keeps_original (lib : Lib) (env : Env) (prog ifilename : String)
    (trace : List SyncStep) (garbage : ogg_packet)
    (h : (main lib env [prog, ifilename] trace garbage).headersOk = false ∨
         Msg.corruptedData ∈ (main lib env [prog, ifilename] trace garbage).st.err ∨
         Msg.bitstreamError ∈ (main lib env [prog, ifilename] trace garbage).st.err ∨
         (main lib env [prog, ifilename] trace garbage).st.fo.badbit = true) :
    (main lib env [prog, ifilename] trace garbage).ops = [FsOp.remove (ifilename ++ ".tmp")] ∧
    (main lib env [prog, ifilename] trace garbage).files ifilename = env.files ifilename := by
  have hm : main lib env [prog, ifilename] trace garbage =
      mainWith lib env ifilename [] trace garbage := rfl
  rw [hm] at h ⊢
  obtain ⟨-, e1, -, e3⟩ := mainWith_eq lib env ifilename [] trace garbage
  refine in_place_flagged lib env ifilename trace garbage ?_
  rw [e1, e3] at h
  simp only [State.closeOutput, close_badbit] at h
  rcases h with h | h
  · unfold process
    rw [h]
    rfl
  · rcases process_flagInv lib trace _ garbage (openOutput_not_bad env _) with k | ⟨k1, k2, k3⟩
    · exact k
    · rcases h with h | h | h
      · exact absurd h k1
      · exact absurd h k2
      · rw [k3] at h; exact absurd h (by decide)

theorem in_place_failure_keeps_original_witness :
    ((main sampleLib sampleEnv ["revorb", "a.ogg"]
        (sampleHeaders ++ [SyncStep.desync, SyncStep.page true true
          [PacketOut.pkt (samplePacket [0] true)]])
        (samplePacket [9] false)).headersOk = true ∧
     Msg.corruptedData ∈ (main sampleLib sampleEnv ["revorb", "a.ogg"]
        (sampleHeaders ++ [SyncStep.desync, SyncStep.page true true
          [PacketOut.pkt (samplePacket [0] true)]])
        (samplePacket [9] false)).st.err) ∧
    (main sampleLib sampleEnv ["revorb", "a.ogg"]
        (sampleHeaders ++ [SyncStep.desync, SyncStep.page true true
          [PacketOut.pkt (samplePacket [0] true)]])
        (samplePacket [9] false)).ops = [FsOp.remove ("a.ogg" ++ ".tmp")] ∧
    (main sampleLib sampleEnv ["revorb", "a.ogg"]
        (sampleHeaders ++ [SyncStep.desync, SyncStep.page true true
          [PacketOut.pkt (samplePacket [0] true)]])
        (samplePacket [9] false)).files "a.ogg" = sampleEnv.files "a.ogg" :=
  ⟨by decide,
   in_place_failure_keeps_original sampleLib sampleEnv "revorb" "a.ogg"
     (sampleHeaders ++ [SyncStep.desync, SyncStep.page true true
          [PacketOut.pkt (samplePacket [0] true)]])
     (samplePacket [9] false) (Or.inr (Or.inl (by decide)))⟩

/-! ## Truncated headers -/

theorem takeHeaders_short (pend : List PacketOut) (i : Nat) (s : State)
    (hc : i + pend.length < 2) (hh : PacketOut.hole ∉ pend) :
    (takeHeaders pend i s).1 = true ∧ (takeHeaders pend i s).2.1 = i + pend.length ∧
    (takeHeaders pend i s).2.2.is = [] ∧ (takeHeaders pend i s).2.2.err = s.err ∧
    (takeHeaders pend i s).2.2.fo = s.fo := by
  induction pend generalizing i s with
  | nil => exact ⟨rfl, rfl, rfl, rfl, rfl⟩
  | cons po rest ih =>
    cases po with
    | hole => exact absurd (List.mem_cons_self _ _) hh
    | pkt p =>
      simp only [List.length_cons] at hc
      have hi : i < 2 := by omega
      unfold takeHeaders
      simp only [hi, if_true]
      obtain ⟨a, b, c, d, e⟩ := ih (i + 1) _ (by omega) (fun m => hh (List.mem_cons_of_mem _ m))
      refine ⟨a, ?_, c, d, e⟩
      rw [b, List.length_cons]
      omega

theorem delivered_cons (ev : SyncStep) (tr : List SyncStep) :
    delivered (ev :: tr) = ev.outs ++ delivered tr := by
  simp [delivered]

theorem headerLoop_short (tr : List SyncStep) (i : Nat) (s : State)
    (hc : i + (s.is ++ delivered tr).length < 2) (hh : PacketOut.hole ∉ s.is ++ delivered tr) :
    (headerLoop tr i s).1 = false ∧
    (headerLoop tr i s).2.err = s.err ++ [Msg.headersDamaged] ∧
    (headerLoop tr i s).2.fo = s.fo := by
  induction tr generalizing i s with
  | nil =>
    have hi : i < 2 := by omega
    unfold headerLoop
    rw [if_pos hi]
    exact ⟨rfl, rfl, rfl⟩
  | cons ev rest ih =>
    have hi : i < 2 := by omega
    rw [delivered_cons] at hc hh
    cases ev with
    | needData n =>
      unfold headerLoop
      rw [if_pos hi]
      split
      · exact ⟨rfl, rfl, rfl⟩
      · exact ih i s (by simpa [SyncStep.outs] using hc) (by simpa [SyncStep.outs] using hh)
    | desync =>
      unfold headerLoop
      simp only [hi, if_true]
      exact ih i s (by simpa [SyncStep.outs] using hc) (by simpa [SyncStep.outs] using hh)
    | page eos acc outs =>
      have hp : ogg_stream_pagein s.is acc outs = s.is ++ (SyncStep.page eos acc outs).outs := by
        cases acc <;> simp [ogg_stream_pagein, SyncStep.outs]
      have hc2 : i + (ogg_stream_pagein s.is acc outs).length + (delivered rest).length < 2 := by
        rw [hp]
        simp only [List.length_append] at hc ⊢
        omega
      have hh2 : PacketOut.hole ∉ ogg_stream_pagein s.is acc outs ∧
          PacketOut.hole ∉ delivered rest := by
        rw [hp]
        simp only [List.mem_append, not_or] at hh ⊢
        exact ⟨⟨hh.1, hh.2.1⟩, hh.2.2⟩
      obtain ⟨a, b, c, d, e⟩ := takeHeaders_short (ogg_stream_pagein s.is acc outs) i s
        (by omega) hh2.1
      unfold headerLoop
      simp only [hi, if_true, a]
      obtain ⟨u1, u2, u3⟩ := ih (takeHeaders (ogg_stream_pagein s.is acc outs) i s).2.1
        (takeHeaders (ogg_stream_pagein s.is acc outs) i s).2.2
        (by rw [b, c]; simpa using hc2) (by rw [c]; simpa using hh2.2)
      exact ⟨u1, u2.trans (by rw [d]), u3.trans e⟩

theorem copy_headers_truncated (lib : Lib) (fo : ofstream) (garbage : ogg_packet)
    (eos : Bool) (p0 : ogg_packet) (more : List PacketOut) (rest : List SyncStep)
    (hid : lib.headerin p0.packet = true)
    (hh : PacketOut.hole ∉ more ++ delivered rest)
    (hc : (more ++ delivered rest).length < 2) :
    (copy_headers lib (State.init
      (SyncStep.page eos true (PacketOut.pkt p0 :: more) :: rest) fo garbage)).1 = false ∧
    (copy_headers lib (State.init
      (SyncStep.page eos true (PacketOut.pkt p0 :: more) :: rest) fo garbage)).2.err =
        [Msg.headersDamaged] ∧
    (copy_headers lib (State.init
      (SyncStep.page eos true (PacketOut.pkt p0 :: more) :: rest) fo garbage)).2.fo = fo := by
  obtain ⟨a, b, c⟩ := headerLoop_short rest 0
    { State.init (SyncStep.page eos true (PacketOut.pkt p0 :: more) :: rest) fo garbage with
      trace := rest, is := more, vi := [p0.packet],
      os := ogg_stream_packetin [] p0, headers := [p0] }
    (by simpa using hc) (by simpa using hh)
  unfold copy_headers
  simp only [State.init, hid, Bool.not_true, Bool.false_eq_true, if_false] at a b c ⊢
  rw [a]
  simp only [Bool.false_eq_true, if_false]
  exact ⟨a, by simpa using b, c⟩

/-- C8. When the first packet is a valid identification header and the rest of
the (finite) input delivers fewer than two further packets and no hole,
copy_headers returns false, its only message is "Headers are damaged, file is
probably truncated.", and it has not called write; main then raises the failure
flag, and in in-place mode its only file operation is the removal of the
temporary file, the original keeping its content. -/
theorem truncated_headers_rejected (lib : Lib) (env : Env) (prog ifilename : String)
    (garbage : ogg_packet) (eos : Bool) (p0 : ogg_packet) (more : List PacketOut)
    (rest : List SyncStep)
    (hid : lib.headerin p0.packet = true)
    (hh : PacketOut.hole ∉ more ++ delivered rest)
    (hc : (more ++ delivered rest).length < 2) :
    (main lib env [prog, ifilename]
      (SyncStep.page eos true (PacketOut.pkt p0 :: more) :: rest) garbage).headersOk = false ∧
    (main lib env [prog, ifilename]
      (SyncStep.page eos true (PacketOut.pkt p0 :: more) :: rest) garbage).hdr.err =
        [Msg.headersDamaged] ∧
    (main lib env [prog, ifilename]
      (SyncStep.page eos true (PacketOut.pkt p0 :: more) :: rest) garbage).hdr.fo.calls = 0 ∧
    (main lib env [prog, ifilename]
      (SyncStep.page eos true (PacketOut.pkt p0 :: more) :: rest) garbage).st.fo.data = [] ∧
    (main lib env [prog, ifilename]
      (SyncStep.page eos true (PacketOut.pkt p0 :: more) :: rest) garbage).st.g_failed = true ∧
    (main lib env [prog, ifilename]
      (SyncStep.page eos true (PacketOut.pkt p0 :: more) :: rest) garbage).ops =
        [FsOp.remove (ifilename ++ ".tmp")] ∧
    (main lib env [prog, ifilename]
      (SyncStep.page eos true (PacketOut.pkt p0 :: more) :: rest) garbage).files ifilename =
        env.files ifilename := by
  have hm : main lib env [prog, ifilename]
      (SyncStep.page eos true (PacketOut.pkt p0 :: more) :: rest) garbage =
      mainWith lib env ifilename []
        (SyncStep.page eos true (PacketOut.pkt p0 :: more) :: rest) garbage := rfl
  rw [hm]
  obtain ⟨-, e1, e2, e3⟩ := mainWith_eq lib env ifilename []
    (SyncStep.page eos true (PacketOut.pkt p0 :: more) :: rest) garbage
  obtain ⟨a, b, c⟩ := copy_headers_truncated lib (openOutput env (outputPath ifilename []))
    garbage eos p0 more rest hid hh hc
  have hfo : (openOutput env (outputPath ifilename [])).calls = 0 ∧
      (openOutput env (outputPath ifilename [])).data = [] ∧
      (openOutput env (outputPath ifilename [])).pending = [] := by
    unfold openOutput ofstream.openFile ofstream.fresh
    split <;> exact ⟨rfl, rfl, rfl⟩
  have hp : process lib (State.init (SyncStep.page eos true (PacketOut.pkt p0 :: more) :: rest)
      (openOutput env (outputPath ifilename [])) garbage) =
      { (copy_headers lib (State.init
          (SyncStep.page eos true (PacketOut.pkt p0 :: more) :: rest)
          (openOutput env (outputPath ifilename [])) garbage)).2 with g_failed := true } := by
    unfold process
    rw [a]
    rfl
  have hg : (process lib (State.init (SyncStep.page eos true (PacketOut.pkt p0 :: more) :: rest)
      (openOutput env (outputPath ifilename [])) garbage)).g_failed = true := by
    rw [hp]
  obtain ⟨o1, o2⟩ := in_place_flagged lib env ifilename _ garbage hg
  refine ⟨by rw [e3]; exact a, by rw [e2]; exact b, by rw [e2, c]; exact hfo.1, ?_,
    by rw [e1]; exact hg, o1, o2⟩
  rw [e1, hp]
  show (copy_headers lib _).2.fo.close.data = []
  rw [c, close_data_of_empty _ hfo.2.2]
  exact hfo.2.1

theorem truncated_headers_rejected_witness :
    sampleLib.headerin (samplePacket [1] false).packet = true ∧
    PacketOut.hole ∉ ([] : List PacketOut) ++ delivered
      [SyncStep.page false true [PacketOut.pkt (samplePacket [3] false)], SyncStep.needData 0] ∧
    (main sampleLib sampleEnv ["revorb", "a.ogg"]
      [SyncStep.page false true [PacketOut.pkt (samplePacket [1] false)],
       SyncStep.page false true [PacketOut.pkt (samplePacket [3] false)],
       SyncStep.needData 0] (samplePacket [9] false)).hdr.err = [Msg.headersDamaged] ∧
    (main sampleLib sampleEnv ["revorb", "a.ogg"]
      [SyncStep.page false true [PacketOut.pkt (samplePacket [1] false)],
       SyncStep.page false true [PacketOut.pkt (samplePacket [3] false)],
       SyncStep.needData 0] (samplePacket [9] false)).files "a.ogg" = some [1, 2, 3] :=
  ⟨by decide, by decide,
   (truncated_headers_rejected sampleLib sampleEnv "revorb" "a.ogg" (samplePacket [9] false)
     false (samplePacket [1] false) []
     [SyncStep.page false true [PacketOut.pkt (samplePacket [3] false)], SyncStep.needData 0]
     (by decide) (by decide) (by decide)).2.1,
   by decide⟩

/-! ## The output side of the loop -/

theorem LoopInv.frameL {s t : State} (h : LoopInv s) (h1 : t.vi = s.vi)
    (h2 : t.headers = s.headers) (h3 : t.injected = s.injected) (h4 : t.written = s.written)
    (h5 : t.os = s.os) (h6 : t.lost = s.lost) : LoopInv t := by
  unfold LoopInv OutInv at *
  rw [h1, h2, h3, h4, h5, h6]
  exact h

theorem pageout_parts (lib : Lib) (os pg rest : List ogg_packet)
    (h : ogg_stream_pageout lib os = some (pg, rest)) :
    pg ++ rest = os ∧ rest.length < os.length := by
  unfold ogg_stream_pageout at h
  simp only at h
  split at h
  · simp at h
  · rename_i hn
    simp only [Option.some.injEq, Prod.mk.injEq] at h
    obtain ⟨h1, h2⟩ := h
    refine ⟨by rw [← h1, ← h2]; exact take_append_drop_eq _ _, ?_⟩
    rw [← h2, List.length_drop]
    omega

theorem flush_parts (lib : Lib) (os pg rest : List ogg_packet)
    (h : ogg_stream_flush lib os = some (pg, rest)) :
    pg ++ rest = os ∧ rest.length < os.length := by
  unfold ogg_stream_flush at h
  simp only at h
  split at h
  · simp at h
  · rename_i hne
    simp only [Option.some.injEq, Prod.mk.injEq] at h
    obtain ⟨h1, h2⟩ := h
    refine ⟨by rw [← h1, ← h2]; exact take_append_drop_eq _ _, ?_⟩
    rw [← h2, List.length_drop]
    have : 0 < os.length := List.length_pos.2 hne
    omega

theorem LoopInv.written {s : State} (h : LoopInv s) (pg rest : List ogg_packet)
    (hcat : pg ++ rest = s.os) (fo : ofstream) (complete : Bool) :
    LoopInv { s with os := rest, fo := fo,
                     written := if complete then s.written ++ pg else s.written,
                     lost := s.lost || !complete } := by
  obtain ⟨⟨h1, h2⟩, h3⟩ := h
  refine ⟨⟨h1, fun hl => ?_⟩, h3⟩
  simp only [Bool.or_eq_false_iff, Bool.not_eq_false'] at hl
  simp only [hl.2, if_true, List.append_assoc, hcat]
  exact h2 hl.1

theorem LoopInv.lostNow {s : State} (h : LoopInv s) (t : State) (h1 : t.vi = s.vi)
    (h2 : t.headers = s.headers) (h3 : t.injected = s.injected) (h4 : t.lost = true) :
    LoopInv t := by
  obtain ⟨⟨a, -⟩, c⟩ := h
  refine ⟨⟨by rw [h1, h2]; exact a, fun hl => ?_⟩, by rw [h3]; exact c⟩
  rw [h4] at hl
  exact absurd hl (by decide)

theorem LoopInv.pageoutLoopL (lib : Lib) (fuel : Nat) {s : State} (h : LoopInv s) :
    LoopInv (pageoutLoop lib fuel s) := by
  induction fuel generalizing s with
  | zero => exact h
  | succ n ih =>
    unfold Revorb.pageoutLoop
    cases hp : ogg_stream_pageout lib s.os with
    | none => exact h
    | some pr =>
      obtain ⟨pg, rest⟩ := pr
      simp only
      split
      · exact h.lostNow _ rfl rfl rfl rfl
      · exact ih (h.written pg rest (pageout_parts lib _ _ _ hp).1 _ _)

theorem LoopInv.injectL (lib : Lib) {s : State} (h : LoopInv s) : LoopInv (inject lib s) := by
  unfold Revorb.inject
  split
  · exact h
  · rename_i he
    refine LoopInv.pageoutLoopL lib _ ?_
    obtain ⟨⟨h1, h2⟩, h3⟩ := h
    refine ⟨⟨h1, fun hl => ?_⟩, ?_⟩
    · simp only [ogg_stream_packetin, ← List.append_assoc]
      rw [h2 hl]
    · intro p hp
      simp only [List.mem_append, List.mem_singleton] at hp
      rcases hp with hp | rfl
      · exact h3 p hp
      · simpa using he

theorem LoopInv.packetLoopL (lib : Lib) (pend : List PacketOut) {s : State} (h : LoopInv s) :
    LoopInv (packetLoop lib pend s) := by
  induction pend generalizing s with
  | nil => exact h.frameL rfl rfl rfl rfl rfl rfl
  | cons po rest ih =>
    cases po with
    | hole =>
      refine ih ?_
      exact h.frameL rfl rfl rfl rfl rfl rfl
    | pkt p =>
      refine ih (LoopInv.injectL lib ?_)
      exact h.frameL rfl rfl rfl rfl rfl rfl

theorem LoopInv.pageLoopL (lib : Lib) (tr : List SyncStep) {s : State} (h : LoopInv s) :
    LoopInv (pageLoop lib tr s) := by
  induction tr generalizing s with
  | nil =>
    unfold Revorb.pageLoop
    split <;> exact h.frameL rfl rfl rfl rfl rfl rfl
  | cons ev rest ih =>
    cases ev with
    | needData n =>
      unfold Revorb.pageLoop
      split
      · exact h.frameL rfl rfl rfl rfl rfl rfl
      · split
        · exact ih h
        · refine ih ?_
          exact h.frameL rfl rfl rfl rfl rfl rfl
    | desync =>
      unfold Revorb.pageLoop
      split
      · exact h.frameL rfl rfl rfl rfl rfl rfl
      · refine ih ?_
        exact h.frameL rfl rfl rfl rfl rfl rfl
    | page eos acc outs =>
      unfold Revorb.pageLoop
      split
      · exact h.frameL rfl rfl rfl rfl rfl rfl
      · refine ih (LoopInv.packetLoopL _ _ ?_)
        exact h.frameL rfl rfl rfl rfl rfl rfl

theorem flushLoop_out (lib : Lib) (fuel : Nat) (s : State) (h : OutInv s)
    (hf : s.os.length ≤ fuel) :
    OutInv (flushLoop lib fuel s) ∧
    ((flushLoop lib fuel s).lost = false → (flushLoop lib fuel s).os = []) := by
  induction fuel generalizing s with
  | zero => exact ⟨h, fun _ => List.length_eq_zero.1 (Nat.le_zero.1 hf)⟩
  | succ n ih =>
    unfold flushLoop
    cases hp : ogg_stream_flush lib s.os with
    | none =>
      refine ⟨h, fun _ => ?_⟩
      unfold ogg_stream_flush at hp
      simp only at hp
      split at hp
      · assumption
      · simp at hp
    | some pr =>
      obtain ⟨pg, rest⟩ := pr
      obtain ⟨hcat, hlen⟩ := flush_parts lib _ _ _ hp
      simp only
      split
      · refine ⟨⟨h.1, fun hl => ?_⟩, fun hl => ?_⟩ <;> exact absurd hl (by simp)
      · refine ih _ ?_ (by simp only; omega)
        obtain ⟨h1, h2⟩ := h
        refine ⟨h1, fun hl => ?_⟩
        simp only [Bool.or_eq_false_iff, Bool.not_eq_false'] at hl
        simp only [hl.2, if_true, List.append_assoc, hcat]
        exact h2 hl.1

theorem finish_eos (lib : Lib) (s : State) : (finish lib s).eos = s.eos := by
  unfold finish
  split
  · rfl
  · exact (flushLoop_frame lib _ _).2.2.2.2.2.2.2.2

theorem finish_out (lib : Lib) (s : State) (h : LoopInv s) (he : s.eos ≠ 2) :
    (finish lib s).injected = s.injected ++ [flagEos s.packet] ∧
      ((finish lib s).lost = false →
        (finish lib s).written = (finish lib s).headers ++ (finish lib s).injected) := by
  obtain ⟨⟨h1, h2⟩, -⟩ := h
  have hs1 : OutInv
      { s with packet := flagEos s.packet,
               os := ogg_stream_packetin s.os (flagEos s.packet),
               injected := s.injected ++ [flagEos s.packet] } := by
    refine ⟨h1, fun hl => ?_⟩
    simp only [ogg_stream_packetin, ← List.append_assoc]
    rw [h2 hl]
  obtain ⟨⟨-, o2⟩, o3⟩ := flushLoop_out lib _ _ hs1 (le_refl _)
  obtain ⟨-, -, -, -, f5, -⟩ := flushLoop_frame lib
    (ogg_stream_packetin s.os (flagEos s.packet)).length
    { s with packet := flagEos s.packet,
             os := ogg_stream_packetin s.os (flagEos s.packet),
             injected := s.injected ++ [flagEos s.packet] }
  unfold finish
  rw [if_neg he]
  refine ⟨f5, fun hl => ?_⟩
  have := o2 hl
  rw [o3 hl, List.append_nil] at this
  exact this

/-- C4, as stated, fails: on a stream whose data runs out without a page flagged
end-of-stream, copy_headers succeeds, every page written is stored completely,
and yet the packet injected by the loop is flagged neither end-of-stream nor
written: the loop leaves with `eos == 2` and the final injection and flush are
skipped. -/
theorem input_exhaustion_skips_final_flush :
    (main sampleLib sampleEnv ["revorb", "a.ogg"] unterminatedTrace
      (samplePacket [9] false)).headersOk = true ∧
    (main sampleLib sampleEnv ["revorb", "a.ogg"] unterminatedTrace
      (samplePacket [9] false)).st.lost = false ∧
    (main sampleLib sampleEnv ["revorb", "a.ogg"] unterminatedTrace
      (samplePacket [9] false)).st.injected.map (fun p => (p.packet, p.e_o_s)) =
        [([0], false)] ∧
    (main sampleLib sampleEnv ["revorb", "a.ogg"] unterminatedTrace
      (samplePacket [9] false)).st.written.map (fun p => p.packet) = [[1], [3], [5]] ∧
    (main sampleLib sampleEnv ["revorb", "a.ogg"] unterminatedTrace
      (samplePacket [9] false)).files "a.ogg" = some [3, 1, 3, 5] := by
  decide

/-- C4, amended. For every input on which copy_headers succeeds, every page
written is stored completely and the loop ends on a page flagged end-of-stream
(`eos == 1`), main flags the last packet end-of-stream, injects it and flushes
the output stream: the injected packets end with a packet flagged
end-of-stream, no packet injected before it carries the flag, and the packets
written are the header packets followed by all injected packets. -/
theorem final_packet_flushed (lib : Lib) (env : Env) (argv : List String)
    (trace : List SyncStep) (garbage : ogg_packet)
    (hok : (main lib env argv trace garbage).headersOk = true)
    (hl : (main lib env argv trace garbage).st.lost = false)
    (he : (main lib env argv trace garbage).st.eos = 1) :
    ∃ pre last, (main lib env argv trace garbage).st.injected = pre ++ [last] ∧
      last.e_o_s = true ∧ (∀ p ∈ pre, p.e_o_s = false) ∧
      (main lib env argv trace garbage).st.written =
        (main lib env argv trace garbage).st.headers ++
        (main lib env argv trace garbage).st.injected := by
  obtain ⟨fo, hb, ⟨-, -, h3⟩ | ⟨h1, -, h3⟩⟩ := main_cases lib env argv trace garbage
  · rw [h3] at hok; exact absurd hok (by decide)
  · rw [h3] at hok
    rw [h1] at hl he ⊢
    simp only [State.closeOutput, Bool.or_eq_false_iff] at hl he ⊢
    replace hl := hl.1
    obtain ⟨c1, -, -, -⟩ := copy_headers_ok lib trace fo garbage hb hok
    obtain ⟨-, c2, -⟩ := copy_headers_same lib (State.init trace fo garbage)
    have hinv : LoopInv (copy_headers lib (State.init trace fo garbage)).2 :=
      ⟨c1, by rw [c2]; intro p hp; simp [State.init] at hp⟩
    unfold process granuleLoop at hl he ⊢
    simp only [hok, if_true] at hl he ⊢
    have hloop := LoopInv.pageLoopL lib (copy_headers lib (State.init trace fo garbage)).2.trace
      (s := { (copy_headers lib (State.init trace fo garbage)).2 with
              granpos := 0, packetnum := 0, lastbs := 0, eos := 0 })
      (hinv.frameL rfl rfl rfl rfl rfl rfl)
    rw [finish_eos] at he
    obtain ⟨f1, f3⟩ := finish_out lib _ hloop (by rw [he]; decide)
    exact ⟨_, _, f1, rfl, hloop.2, f3 hl⟩

theorem final_packet_flushed_witness :
    ((main sampleLib sampleEnv ["revorb", "a.ogg"] sampleTrace
        (samplePacket [9] false)).headersOk = true ∧
     (main sampleLib sampleEnv ["revorb", "a.ogg"] sampleTrace
        (samplePacket [9] false)).st.lost = false ∧
     (main sampleLib sampleEnv ["revorb", "a.ogg"] sampleTrace
        (samplePacket [9] false)).st.eos = 1) ∧
    ∃ pre last, (main sampleLib sampleEnv ["revorb", "a.ogg"] sampleTrace
        (samplePacket [9] false)).st.injected = pre ++ [last] ∧
      last.e_o_s = true ∧ (∀ p ∈ pre, p.e_o_s = false) ∧
      (main sampleLib sampleEnv ["revorb", "a.ogg"] sampleTrace
        (samplePacket [9] false)).st.written =
        (main sampleLib sampleEnv ["revorb", "a.ogg"] sampleTrace
          (samplePacket [9] false)).st.headers ++
        (main sampleLib sampleEnv ["revorb", "a.ogg"] sampleTrace
          (samplePacket [9] false)).st.injected :=
  ⟨by decide,
   final_packet_flushed sampleLib sampleEnv ["revorb", "a.ogg"] sampleTrace
     (samplePacket [9] false) (by decide) (by decide) (by decide)⟩

/-! ## The failure flag is never lowered -/

theorem pageoutLoop_flag (lib : Lib) (fuel : Nat) (s : State) :
    ((pageoutLoop lib fuel s).g_failed = true ∨
      ((pageoutLoop lib fuel s).eos = s.eos ∧ (pageoutLoop lib fuel s).g_failed = s.g_failed)) ∧
    (s.g_failed = true → (pageoutLoop lib fuel s).g_failed = true) := by
  induction fuel generalizing s with
  | zero => exact ⟨Or.inr ⟨rfl, rfl⟩, fun h => h⟩
  | succ n ih =>
    unfold pageoutLoop
    cases hp : ogg_stream_pageout lib s.os with
    | none => exact ⟨Or.inr ⟨rfl, rfl⟩, fun h => h⟩
    | some pr =>
      obtain ⟨pg, rest⟩ := pr
      simp only
      split
      · exact ⟨Or.inl rfl, fun _ => rfl⟩
      · exact ih _

theorem flushLoop_flag (lib : Lib) (fuel : Nat) (s : State) (h : s.g_failed = true) :
    (flushLoop lib fuel s).g_failed = true := by
  induction fuel generalizing s with
  | zero => exact h
  | succ n ih =>
    unfold flushLoop
    cases hp : ogg_stream_flush lib s.os with
    | none => exact h
    | some pr =>
      obtain ⟨pg, rest⟩ := pr
      simp only
      split
      · rfl
      · exact ih _ h

theorem inject_flag (lib : Lib) (s : State) (h : s.g_failed = true) :
    (inject lib s).g_failed = true := by
  unfold inject
  split
  · exact h
  · exact (pageoutLoop_flag lib _ _).2 h

theorem packetLoop_flag (lib : Lib) (pend : List PacketOut) (s : State)
    (h : s.g_failed = true) : (packetLoop lib pend s).g_failed = true := by
  induction pend generalizing s with
  | nil => exact h
  | cons po rest ih =>
    cases po with
    | hole => exact ih _ rfl
    | pkt p => exact ih _ (inject_flag lib _ h)

theorem pageLoop_flag (lib : Lib) (tr : List SyncStep) (s : State)
    (h : s.g_failed = true) : (pageLoop lib tr s).g_failed = true := by
  induction tr generalizing s with
  | nil =>
    unfold pageLoop
    split <;> exact h
  | cons ev rest ih =>
    cases ev with
    | needData n =>
      unfold pageLoop
      split
      · exact h
      · split
        · exact ih _ h
        · exact ih _ h
    | desync =>
      unfold pageLoop
      split
      · exact h
      · exact ih _ rfl
    | page eos acc outs =>
      unfold pageLoop
      split
      · exact h
      · exact ih _ (packetLoop_flag lib _ _ h)

theorem finish_flag (lib : Lib) (s : State) (h : s.g_failed = true) :
    (finish lib s).g_failed = true := by
  unfold finish
  split
  · exact h
  · exact flushLoop_flag lib _ _ h

/-! ## Packets taken by the loop -/

theorem Took.reflT (s : State) : Took s s [] :=
  ⟨rfl, rfl, rfl, rfl, [], by simp, by simp, rfl⟩

theorem Took.transT {s t u : State} {ps qs : List ogg_packet} (h1 : Took s t ps)
    (h2 : Took t u qs) : Took s u (ps ++ qs) := by
  obtain ⟨e1, g1, v1, d1, xs, i1, t1, m1⟩ := h1
  obtain ⟨e2, g2, v2, d2, ys, i2, t2, m2⟩ := h2
  refine ⟨e2.trans e1, g2.trans g1, v2.trans v1, d2.trans d1, xs ++ ys, ?_, ?_, ?_⟩
  · rw [i2, i1, List.append_assoc]
  · rw [t2, t1, List.append_assoc]
  · rw [List.map_append, List.map_append, m1, m2]

theorem Took.frameT {s t u : State} {ps : List ogg_packet} (h : Took s t ps)
    (h1 : u.eos = t.eos) (h2 : u.g_failed = t.g_failed) (h3 : u.vi = t.vi)
    (h4 : u.headers = t.headers) (h5 : u.injected = t.injected) (h6 : u.stamped = t.stamped) :
    Took s u ps := by
  unfold Took at *
  rw [h1, h2, h3, h4, h5, h6]
  exact h

theorem Took.since {s t u : State} {ps : List ogg_packet} (h : Took t u ps)
    (h1 : t.eos = s.eos) (h2 : t.g_failed = s.g_failed) (h3 : t.vi = s.vi)
    (h4 : t.headers = s.headers) (h5 : t.injected = s.injected) (h6 : t.stamped = s.stamped) :
    Took s u ps := by
  unfold Took at *
  rw [← h1, ← h2, ← h3, ← h4, ← h5, ← h6]
  exact h

theorem inject_stamp_took (lib : Lib) (s : State) (p : ogg_packet) (hp : p.e_o_s = false) :
    (inject lib (stamp lib s p)).g_failed = true ∨ Took s (inject lib (stamp lib s p)) [p] := by
  have he : (stamp lib s p).packet.e_o_s = false := hp
  unfold inject
  rw [he]
  simp only [Bool.false_eq_true, if_false]
  obtain ⟨f1, -, -, f4, f5, -, -, f8⟩ := pageoutLoop_frame lib ((stamp lib s p).os.length + 1)
    { stamp lib s p with os := ogg_stream_packetin (stamp lib s p).os (stamp lib s p).packet,
                         injected := (stamp lib s p).injected ++ [(stamp lib s p).packet] }
  rcases (pageoutLoop_flag lib ((stamp lib s p).os.length + 1)
    { stamp lib s p with os := ogg_stream_packetin (stamp lib s p).os (stamp lib s p).packet,
                         injected := (stamp lib s p).injected ++ [(stamp lib s p).packet] }).1
    with hf | ⟨g1, g2⟩
  · exact Or.inl hf
  · refine Or.inr ⟨g1, g2, f1, f8, [(stamp lib s p).packet], ?_, ?_, ?_⟩
    · rw [f5]; simp [stamp]
    · rw [f4]; simp [stamp]
    · simp [stamp]

theorem packetLoop_took (lib : Lib) (ps : List ogg_packet) (rest : List PacketOut) (s : State)
    (hp : ∀ p ∈ ps, p.e_o_s = false) :
    (packetLoop lib (ps.map PacketOut.pkt ++ rest) s).g_failed = true ∨
    ∃ t, packetLoop lib (ps.map PacketOut.pkt ++ rest) s = packetLoop lib rest t ∧
      Took s t ps := by
  induction ps generalizing s with
  | nil => exact Or.inr ⟨s, rfl, Took.reflT s⟩
  | cons p ps ih =>
    have h1 : packetLoop lib ((p :: ps).map PacketOut.pkt ++ rest) s =
        packetLoop lib (ps.map PacketOut.pkt ++ rest) (inject lib (stamp lib s p)) := rfl
    rw [h1]
    rcases inject_stamp_took lib s p (hp p (List.mem_cons_self _ _)) with hf | ht
    · exact Or.inl (packetLoop_flag lib _ _ hf)
    · rcases ih (inject lib (stamp lib s p)) (fun q hq => hp q (List.mem_cons_of_mem _ hq))
        with hf | ⟨t, e, ht2⟩
      · exact Or.inl hf
      · exact Or.inr ⟨t, e, by simpa using ht.transT ht2⟩

theorem audioPackets_cons (a : AudioStep) (pre : List AudioStep) :
    audioPackets (a :: pre) = a.packets ++ audioPackets pre := by
  simp [audioPackets]

theorem pageLoop_took (lib : Lib) (pre : List AudioStep) (rest : List SyncStep) (s : State)
    (he : s.eos = 0) (hi : s.is = [])
    (hp : ∀ a ∈ pre, ∀ p ∈ a.packets, p.e_o_s = false) :
    (pageLoop lib (pre.map AudioStep.toSync ++ rest) s).g_failed = true ∨
    ∃ t, pageLoop lib (pre.map AudioStep.toSync ++ rest) s = pageLoop lib rest t ∧
      t.is = [] ∧ Took s t (audioPackets pre) := by
  induction pre generalizing s with
  | nil => exact Or.inr ⟨s, rfl, hi, Took.reflT s⟩
  | cons a pre ih =>
    have hp2 : ∀ b ∈ pre, ∀ p ∈ b.packets, p.e_o_s = false :=
      fun b hb => hp b (List.mem_cons_of_mem _ hb)
    cases a with
    | read n =>
      have h1 : pageLoop lib ((AudioStep.read n :: pre).map AudioStep.toSync ++ rest) s =
          pageLoop lib (pre.map AudioStep.toSync ++ rest) s := by
        simp only [List.map_cons, List.cons_append, AudioStep.toSync]
        rw [pageLoop]
        simp [he]
      rw [h1]
      rcases ih s he hi hp2 with hf | ⟨t, e, ti, ht⟩
      · exact Or.inl hf
      · exact Or.inr ⟨t, e, ti, by simpa [audioPackets_cons, AudioStep.packets] using ht⟩
    | page ps =>
      have h1 : pageLoop lib ((AudioStep.page ps :: pre).map AudioStep.toSync ++ rest) s =
          pageLoop lib (pre.map AudioStep.toSync ++ rest)
            (packetLoop lib (ps.map PacketOut.pkt ++ []) { s with eos := 0 }) := by
        simp only [List.map_cons, List.cons_append, AudioStep.toSync]
        rw [pageLoop]
        simp [he, hi, ogg_stream_pagein]
      rw [h1]
      rcases packetLoop_took lib ps [] { s with eos := 0 }
        (hp _ (List.mem_cons_self _ _)) with hf | ⟨t, e, ht⟩
      · exact Or.inl (pageLoop_flag lib _ _ hf)
      · rw [e]
        have ht0 : Took s (packetLoop lib [] t) ps := by
          refine Took.frameT (Took.since ht ?_ rfl rfl rfl rfl rfl) rfl rfl rfl rfl rfl rfl
          exact he.symm
        rcases ih (packetLoop lib [] t) (ht0.1.trans he) rfl hp2 with hf | ⟨u, e2, ui, hu⟩
        · exact Or.inl hf
        · exact Or.inr ⟨u, e2, ui, by
            simpa [audioPackets_cons, AudioStep.packets] using ht0.transT hu⟩

theorem pageLoop_done (lib : Lib) (tr : List SyncStep) (s : State) (h : s.eos ≠ 0) :
    pageLoop lib tr s = { s with trace := tr } := by
  cases tr with
  | nil => rw [pageLoop]; simp [h]
  | cons ev rest =>
    cases ev <;> (rw [pageLoop]; simp [h])

theorem finish_frame (lib : Lib) (s : State) (he : s.eos ≠ 2) :
    (finish lib s).injected = s.injected ++ [flagEos s.packet] ∧
    (finish lib s).stamped = s.stamped ∧ (finish lib s).vi = s.vi ∧
    (finish lib s).headers = s.headers := by
  obtain ⟨f1, -, -, f4, f5, -, -, f8, -⟩ := flushLoop_frame lib
    (ogg_stream_packetin s.os (flagEos s.packet)).length
    { s with packet := flagEos s.packet,
             os := ogg_stream_packetin s.os (flagEos s.packet),
             injected := s.injected ++ [flagEos s.packet] }
  unfold finish
  rw [if_neg he]
  exact ⟨f5, f4, f1, f8⟩

/-- The loop and the final injection on a well-formed audio part: steps `pre`,
then a page flagged end-of-stream whose last packet carries the end-of-stream
flag.  The packets stamped are `qs ++ [q]`, the packets injected are the same
with the last one flagged, and their payloads are those of the input. -/
theorem finish_pageLoop_lossless (lib : Lib) (s : State) (pre : List AudioStep)
    (ps : List ogg_packet) (last : ogg_packet) (post : List SyncStep)
    (he : s.eos = 0) (hinj : s.injected = []) (hst : s.stamped = []) (his : s.is = [])
    (hpre : ∀ a ∈ pre, ∀ p ∈ a.packets, p.e_o_s = false)
    (hps : ∀ p ∈ ps, p.e_o_s = false) (hlast : last.e_o_s = true)
    (hg : (finish lib (pageLoop lib (pre.map AudioStep.toSync ++
      SyncStep.page true true (ps.map PacketOut.pkt ++ [PacketOut.pkt last]) :: post)
      s)).g_failed = false) :
    ∃ (qs : List ogg_packet) (q : ogg_packet),
      (finish lib (pageLoop lib (pre.map AudioStep.toSync ++
        SyncStep.page true true (ps.map PacketOut.pkt ++ [PacketOut.pkt last]) :: post)
        s)).injected = qs ++ [flagEos q] ∧
      (finish lib (pageLoop lib (pre.map AudioStep.toSync ++
        SyncStep.page true true (ps.map PacketOut.pkt ++ [PacketOut.pkt last]) :: post)
        s)).stamped = qs ++ [q] ∧
      (qs ++ [q]).map (fun p => p.packet) =
        (audioPackets pre ++ ps ++ [last]).map (fun p => p.packet) ∧
      (finish lib (pageLoop lib (pre.map AudioStep.toSync ++
        SyncStep.page true true (ps.map PacketOut.pkt ++ [PacketOut.pkt last]) :: post)
        s)).vi = s.vi ∧
      (finish lib (pageLoop lib (pre.map AudioStep.toSync ++
        SyncStep.page true true (ps.map PacketOut.pkt ++ [PacketOut.pkt last]) :: post)
        s)).headers = s.headers := by
  rcases pageLoop_took lib pre (SyncStep.page true true
      (ps.map PacketOut.pkt ++ [PacketOut.pkt last]) :: post) s he his hpre
    with hf | ⟨t, et, ti, ht⟩
  · rw [finish_flag lib _ hf] at hg
    exact absurd hg (by decide)
  · rw [et] at hg ⊢
    have te : t.eos = 0 := ht.1.trans he
    have e4 : pageLoop lib (SyncStep.page true true
          (ps.map PacketOut.pkt ++ [PacketOut.pkt last]) :: post) t =
        pageLoop lib post (packetLoop lib (ps.map PacketOut.pkt ++ [PacketOut.pkt last])
          { t with eos := 1 }) := by
      rw [pageLoop]
      simp [te, ti, ogg_stream_pagein]
    rw [e4] at hg ⊢
    rcases packetLoop_took lib ps [PacketOut.pkt last] { t with eos := 1 } hps
      with hf | ⟨u, eu, hu⟩
    · rw [finish_flag lib _ (pageLoop_flag lib _ _ hf)] at hg
      exact absurd hg (by decide)
    · rw [eu] at hg ⊢
      have ue : u.eos = 1 := hu.1
      have e5 : packetLoop lib [PacketOut.pkt last] u = { stamp lib u last with is := [] } := by
        have hl : (stamp lib u last).packet.e_o_s = true := hlast
        simp only [packetLoop, inject, hl, if_true]
      have e6 : pageLoop lib post { stamp lib u last with is := [] } =
          { stamp lib u last with is := [], trace := post } :=
        pageLoop_done lib post _ (by show u.eos ≠ 0; rw [ue]; decide)
      rw [e5, e6] at hg ⊢
      obtain ⟨f1, f2, f3, f4⟩ := finish_frame lib
        { stamp lib u last with is := [], trace := post } (by show u.eos ≠ 2; rw [ue]; decide)
      rw [f1, f2, f3, f4]
      obtain ⟨-, -, a3, a4, xs, a5, a6, a7⟩ := ht
      obtain ⟨-, -, b3, b4, ys, b5, b6, b7⟩ := hu
      simp only at a3 a4 a5 a6 b3 b4 b5 b6
      refine ⟨xs ++ ys, (stamp lib u last).packet, ?_, ?_, ?_, ?_, ?_⟩
      · show u.injected ++ [flagEos (stamp lib u last).packet] = _
        rw [b5, a5, hinj]
        simp
      · show u.stamped ++ [(stamp lib u last).packet] = _
        rw [b6, a6, hst]
        simp
      · simp only [List.map_append, a7, b7]
        simp [stamp]
      · show u.vi = s.vi
        rw [b3, a3]
      · show u.headers = s.headers
        rw [b4, a4]

theorem granuleLoop_lossless (lib : Lib) (h : State) (pre : List AudioStep)
    (ps : List ogg_packet) (last : ogg_packet) (post : List SyncStep)
    (hinj : h.injected = []) (hst : h.stamped = []) (his : h.is = [])
    (htr : h.trace = pre.map AudioStep.toSync ++
      SyncStep.page true true (ps.map PacketOut.pkt ++ [PacketOut.pkt last]) :: post)
    (hpre : ∀ a ∈ pre, ∀ p ∈ a.packets, p.e_o_s = false)
    (hps : ∀ p ∈ ps, p.e_o_s = false) (hlast : last.e_o_s = true)
    (hgf : (granuleLoop lib h).g_failed = false) :
    ∃ (qs : List ogg_packet) (q : ogg_packet),
      (granuleLoop lib h).injected = qs ++ [flagEos q] ∧
      (granuleLoop lib h).stamped = qs ++ [q] ∧
      (qs ++ [q]).map (fun p => p.packet) =
        (audioPackets pre ++ ps ++ [last]).map (fun p => p.packet) ∧
      (granuleLoop lib h).vi = h.vi ∧ (granuleLoop lib h).headers = h.headers := by
  have key := finish_pageLoop_lossless lib
    { h with granpos := 0, packetnum := 0, lastbs := 0, eos := 0 } pre ps last post
    rfl hinj hst his hpre hps hlast
  rw [← htr] at key
  exact key hgf

/-! ## Lossless re-muxing and idempotence -/

/-- A run of main on a stream whose header stage succeeds and whose audio part is
well formed, with no flag raised: the packets stamped have the payloads of the
audio packets of the input, the packets injected are the packets stamped, the
last of them flagged end-of-stream, and the codec state is made of the header
packets that were injected. -/
theorem main_lossless (lib : Lib) (env : Env) (argv : List String) (trace : List SyncStep)
    (garbage : ogg_packet) (pre : List AudioStep) (ps : List ogg_packet) (last : ogg_packet)
    (post : List SyncStep)
    (hok : (main lib env argv trace garbage).headersOk = true)
    (hgf : (main lib env argv trace garbage).st.g_failed = false)
    (his : (main lib env argv trace garbage).hdr.is = [])
    (htr : (main lib env argv trace garbage).hdr.trace = pre.map AudioStep.toSync ++
      SyncStep.page true true (ps.map PacketOut.pkt ++ [PacketOut.pkt last]) :: post)
    (hpre : ∀ a ∈ pre, ∀ p ∈ a.packets, p.e_o_s = false)
    (hps : ∀ p ∈ ps, p.e_o_s = false) (hlast : last.e_o_s = true) :
    ∃ (qs : List ogg_packet) (q : ogg_packet),
      (main lib env argv trace garbage).st.injected = qs ++ [flagEos q] ∧
      (main lib env argv trace garbage).st.stamped = qs ++ [q] ∧
      (qs ++ [q]).map (fun p => p.packet) =
        (audioPackets pre ++ ps ++ [last]).map (fun p => p.packet) ∧
      (main lib env argv trace garbage).st.vi =
        (main lib env argv trace garbage).st.headers.map (fun p => p.packet) := by
  obtain ⟨fo, hb, ⟨-, -, h3⟩ | ⟨h1, h2, h3⟩⟩ := main_cases lib env argv trace garbage
  · rw [h3] at hok; exact absurd hok (by decide)
  · rw [h3] at hok
    rw [h2] at his htr
    rw [h1] at hgf ⊢
    simp only [State.closeOutput] at hgf ⊢
    obtain ⟨⟨c1, -⟩, -, -, -⟩ := copy_headers_ok lib trace fo garbage hb hok
    obtain ⟨d1, d2, -⟩ := copy_headers_same lib (State.init trace fo garbage)
    unfold process at hgf ⊢
    simp only [hok, if_true] at hgf ⊢
    obtain ⟨qs, q, k1, k2, k3, k4, k5⟩ := granuleLoop_lossless lib _ pre ps last post d2 d1
      his htr hpre hps hlast hgf
    exact ⟨qs, q, k1, k2, k3, by rw [k4, k5]; exact c1⟩

theorem map_packet_flagEos (qs : List ogg_packet) (q : ogg_packet) :
    (qs ++ [flagEos q]).map (fun p => p.packet) = (qs ++ [q]).map (fun p => p.packet) := by
  simp [flagEos]

theorem map_granulepos_flagEos (qs : List ogg_packet) (q : ogg_packet) :
    (qs ++ [flagEos q]).map (fun p => p.granulepos) =
      (qs ++ [q]).map (fun p => p.granulepos) := by
  simp [flagEos]

/-- When the header stage succeeds, the audio part is pages of packets followed
by a page flagged end-of-stream whose last packet carries the end-of-stream
flag, and the failure flag stays down, the packets that main injects into the
output stream have the payloads of the audio packets of the input, in the same
order and in the same number.  (The streams whose last page carries no packet
are not of this shape.) -/
theorem remux_lossless (lib : Lib) (env : Env) (argv : List String) (trace : List SyncStep)
    (garbage : ogg_packet) (pre : List AudioStep) (ps : List ogg_packet) (last : ogg_packet)
    (post : List SyncStep)
    (hok : (main lib env argv trace garbage).headersOk = true)
    (hgf : (main lib env argv trace garbage).st.g_failed = false)
    (his : (main lib env argv trace garbage).hdr.is = [])
    (htr : (main lib env argv trace garbage).hdr.trace = pre.map AudioStep.toSync ++
      SyncStep.page true true (ps.map PacketOut.pkt ++ [PacketOut.pkt last]) :: post)
    (hpre : ∀ a ∈ pre, ∀ p ∈ a.packets, p.e_o_s = false)
    (hps : ∀ p ∈ ps, p.e_o_s = false) (hlast : last.e_o_s = true) :
    (main lib env argv trace garbage).st.injected.map (fun p => p.packet) =
      (audioPackets pre ++ ps ++ [last]).map (fun p => p.packet) ∧
    (main lib env argv trace garbage).st.injected.length =
      (audioPackets pre ++ ps ++ [last]).length := by
  obtain ⟨qs, q, k1, -, k3, -⟩ := main_lossless lib env argv trace garbage pre ps last post
    hok hgf his htr hpre hps hlast
  have k : (main lib env argv trace garbage).st.injected.map (fun p => p.packet) =
      (audioPackets pre ++ ps ++ [last]).map (fun p => p.packet) := by
    rw [k1, map_packet_flagEos, k3]
  refine ⟨k, ?_⟩
  have := congrArg List.length k
  simpa using this

theorem remux_lossless_witness :
    ((main sampleLib sampleEnv ["revorb", "a.ogg"] sampleTrace
        (samplePacket [9] false)).headersOk = true ∧
     (main sampleLib sampleEnv ["revorb", "a.ogg"] sampleTrace
        (samplePacket [9] false)).st.g_failed = false) ∧
    (main sampleLib sampleEnv ["revorb", "a.ogg"] sampleTrace
        (samplePacket [9] false)).st.injected.map (fun p => p.packet) =
      (audioPackets [AudioStep.page [samplePacket [0] false, samplePacket [2] false,
          samplePacket [1] false], AudioStep.read 99] ++
        [samplePacket [4] false] ++ [samplePacket [6] true]).map (fun p => p.packet) ∧
    (main sampleLib sampleEnv ["revorb", "a.ogg"] sampleTrace
        (samplePacket [9] false)).st.injected.length = 5 :=
  ⟨by decide,
   remux_lossless sampleLib sampleEnv ["revorb", "a.ogg"] sampleTrace (samplePacket [9] false)
     [AudioStep.page [samplePacket [0] false, samplePacket [2] false, samplePacket [1] false],
      AudioStep.read 99]
     [samplePacket [4] false] (samplePacket [6] true) []
     (by decide) (by decide) (by decide) (by decide) (by decide) (by decide) (by decide)⟩

/-- The granule positions that main stamps depend on the codec headers and on
the payloads of the packets only: two runs that decode the same headers and
stamp packets with the same payloads stamp the same positions. -/
theorem same_packets_same_granules (lib : Lib) (env env2 : Env) (argv argv2 : List String)
    (trace trace2 : List SyncStep) (garbage garbage2 : ogg_packet)
    (hv : (main lib env2 argv2 trace2 garbage2).st.vi = (main lib env argv trace garbage).st.vi)
    (hs : (main lib env2 argv2 trace2 garbage2).st.stamped.map (fun p => p.packet) =
      (main lib env argv trace garbage).st.stamped.map (fun p => p.packet)) :
    (main lib env2 argv2 trace2 garbage2).st.stamped.map (fun p => p.granulepos) =
      (main lib env argv trace garbage).st.stamped.map (fun p => p.granulepos) := by
  obtain ⟨a, -⟩ := main_stampInv lib env argv trace garbage
  obtain ⟨b, -⟩ := main_stampInv lib env2 argv2 trace2 garbage2
  have hb : ∀ s : State, s.blocksizes lib =
      (s.stamped.map (fun p => p.packet)).map (fun x => lib.blocksize s.vi x) := by
    intro s
    simp [State.blocksizes]
  rw [a, b, hb, hb, hs, hv]

/-- Let a first run process, without raising the failure flag, a stream whose
header stage succeeds and whose audio part ends on a page that carries a last
packet flagged end-of-stream, and let a second run process, likewise, a stream
that carries the header packets and the audio packets that the first run
injected into its output (whatever granule positions, packet numbers and page
boundaries they now have).  Then the granule positions stamped by the second
run, and those of the packets it injects, are those of the first run.  (Not so
after a last page without packets.) -/
theorem rerun_granules_equal (lib : Lib) (env env2 : Env) (argv argv2 : List String)
    (trace trace2 : List SyncStep) (garbage garbage2 : ogg_packet)
    (pre pre2 : List AudioStep) (ps ps2 : List ogg_packet) (last last2 : ogg_packet)
    (post post2 : List SyncStep)
    (hok : (main lib env argv trace garbage).headersOk = true)
    (hgf : (main lib env argv trace garbage).st.g_failed = false)
    (his : (main lib env argv trace garbage).hdr.is = [])
    (htr : (main lib env argv trace garbage).hdr.trace = pre.map AudioStep.toSync ++
      SyncStep.page true true (ps.map PacketOut.pkt ++ [PacketOut.pkt last]) :: post)
    (hpre : ∀ a ∈ pre, ∀ p ∈ a.packets, p.e_o_s = false)
    (hps : ∀ p ∈ ps, p.e_o_s = false) (hlast : last.e_o_s = true)
    (hok2 : (main lib env2 argv2 trace2 garbage2).headersOk = true)
    (hgf2 : (main lib env2 argv2 trace2 garbage2).st.g_failed = false)
    (his2 : (main lib env2 argv2 trace2 garbage2).hdr.is = [])
    (htr2 : (main lib env2 argv2 trace2 garbage2).hdr.trace = pre2.map AudioStep.toSync ++
      SyncStep.page true true (ps2.map PacketOut.pkt ++ [PacketOut.pkt last2]) :: post2)
    (hpre2 : ∀ a ∈ pre2, ∀ p ∈ a.packets, p.e_o_s = false)
    (hps2 : ∀ p ∈ ps2, p.e_o_s = false) (hlast2 : last2.e_o_s = true)
    (hh : (main lib env2 argv2 trace2 garbage2).st.headers.map (fun p => p.packet) =
      (main lib env argv trace garbage).st.headers.map (fun p => p.packet))
    (ha : (audioPackets pre2 ++ ps2 ++ [last2]).map (fun p => p.packet) =
      (main lib env argv trace garbage).st.injected.map (fun p => p.packet)) :
    (main lib env2 argv2 trace2 garbage2).st.stamped.map (fun p => p.granulepos) =
      (main lib env argv trace garbage).st.stamped.map (fun p => p.granulepos) ∧
    (main lib env2 argv2 trace2 garbage2).st.injected.map (fun p => p.granulepos) =
      (main lib env argv trace garbage).st.injected.map (fun p => p.granulepos) := by
  obtain ⟨qs, q, k1, k2, k3, k4⟩ := main_lossless lib env argv trace garbage pre ps last post
    hok hgf his htr hpre hps hlast
  obtain ⟨rs, r, m1, m2, m3, m4⟩ := main_lossless lib env2 argv2 trace2 garbage2 pre2 ps2
    last2 post2 hok2 hgf2 his2 htr2 hpre2 hps2 hlast2
  have hst : (main lib env2 argv2 trace2 garbage2).st.stamped.map (fun p => p.granulepos) =
      (main lib env argv trace garbage).st.stamped.map (fun p => p.granulepos) := by
    refine same_packets_same_granules lib env env2 argv argv2 trace trace2 garbage garbage2
      (by rw [m4, k4, hh]) ?_
    rw [m2, m3, ha, k1, k2, map_packet_flagEos]
  refine ⟨hst, ?_⟩
  rw [m1, k1, map_granulepos_flagEos, map_granulepos_flagEos, ← m2, ← k2]
  exact hst

theorem rerun_granules_equal_witness :
    ((main sampleLib sampleEnv ["revorb", "b.ogg"] rerunTrace
        (samplePacket [7] true)).st.headers.map (fun p => p.packet) =
      (main sampleLib sampleEnv ["revorb", "a.ogg", "b.ogg"] sampleTrace
        (samplePacket [9] false)).st.headers.map (fun p => p.packet) ∧
     (audioPackets rerunPages ++ ([] : List ogg_packet) ++ [rerunLast]).map
        (fun p => p.packet) =
      (main sampleLib sampleEnv ["revorb", "a.ogg", "b.ogg"] sampleTrace
        (samplePacket [9] false)).st.injected.map (fun p => p.packet)) ∧
    (main sampleLib sampleEnv ["revorb", "b.ogg"] rerunTrace
        (samplePacket [7] true)).st.stamped.map (fun p => p.granulepos) =
      (main sampleLib sampleEnv ["revorb", "a.ogg", "b.ogg"] sampleTrace
        (samplePacket [9] false)).st.stamped.map (fun p => p.granulepos) ∧
    (main sampleLib sampleEnv ["revorb", "b.ogg"] rerunTrace
        (samplePacket [7] true)).st.injected.map (fun p => p.granulepos) =
      (main sampleLib sampleEnv ["revorb", "a.ogg", "b.ogg"] sampleTrace
        (samplePacket [9] false)).st.injected.map (fun p => p.granulepos) :=
  ⟨by decide,
   rerun_granules_equal sampleLib sampleEnv sampleEnv ["revorb", "a.ogg", "b.ogg"]
     ["revorb", "b.ogg"] sampleTrace rerunTrace (samplePacket [9] false) (samplePacket [7] true)
     [AudioStep.page [samplePacket [0] false, samplePacket [2] false, samplePacket [1] false],
      AudioStep.read 99]
     rerunPages [samplePacket [4] false] [] (samplePacket [6] true) rerunLast [] []
     (by decide) (by decide) (by decide) (by decide) (by decide) (by decide) (by decide)
     (by decide) (by decide) (by decide) (by decide) (by decide) (by decide) (by decide)
     (by decide) (by decide)⟩

/-- C3. A stream with two audio packets whose last page is flagged
end-of-stream and carries no packet: no decode or write error, the failure flag
stays down, two packets are stamped, and three packets are injected into the
output stream: no packet was held back by the test of line 224, and lines
245-246 inject the variable `packet`, the last packet, a second time. -/
theorem empty_last_page_repeats_packet :
    (main sampleLib sampleEnv ["revorb", "a.ogg", "b.ogg"] emptyLastPage
      (samplePacket [9] false)).headersOk = true ∧
    (main sampleLib sampleEnv ["revorb", "a.ogg", "b.ogg"] emptyLastPage
      (samplePacket [9] false)).st.g_failed = false ∧
    (main sampleLib sampleEnv ["revorb", "a.ogg", "b.ogg"] emptyLastPage
      (samplePacket [9] false)).st.lost = false ∧
    (main sampleLib sampleEnv ["revorb", "a.ogg", "b.ogg"] emptyLastPage
      (samplePacket [9] false)).st.stamped.map (fun p => (p.packet, p.granulepos)) =
        [([0], 0), ([2], 1024)] ∧
    (main sampleLib sampleEnv ["revorb", "a.ogg", "b.ogg"] emptyLastPage
      (samplePacket [9] false)).st.injected.map
        (fun p => (p.packet, p.granulepos, p.packetno, p.e_o_s)) =
        [([0], 0, 0, false), ([2], 1024, 1, false), ([2], 1024, 1, true)] := by
  decide

/-- C10. A first run on the stream of `emptyLastPage` stamps the positions 0,
1024 and writes three audio packets (the last one twice).  A second run on a
stream that delivers, packet for packet, what the first run wrote stamps the
positions 0, 1024, 2048: the positions of the second run are not those of the
first, neither the stamped ones nor those of the injected packets. -/
theorem rerun_after_empty_last_page_differs :
    (main sampleLib sampleEnv ["revorb", "a.ogg", "b.ogg"] emptyLastPage
      (samplePacket [9] false)).st.g_failed = false ∧
    (main sampleLib sampleEnv ["revorb", "a.ogg", "b.ogg"] emptyLastPage
      (samplePacket [9] false)).st.lost = false ∧
    delivered rereadEmptyLast =
      (main sampleLib sampleEnv ["revorb", "a.ogg", "b.ogg"] emptyLastPage
        (samplePacket [9] false)).st.written.map PacketOut.pkt ∧
    (main sampleLib sampleEnv ["revorb", "b.ogg"] rereadEmptyLast
      (samplePacket [7] true)).st.g_failed = false ∧
    (main sampleLib sampleEnv ["revorb", "a.ogg", "b.ogg"] emptyLastPage
      (samplePacket [9] false)).st.stamped.map (fun p => p.granulepos) = [0, 1024] ∧
    (main sampleLib sampleEnv ["revorb", "b.ogg"] rereadEmptyLast
      (samplePacket [7] true)).st.stamped.map (fun p => p.granulepos) = [0, 1024, 2048] ∧
    (main sampleLib sampleEnv ["revorb", "a.ogg", "b.ogg"] emptyLastPage
      (samplePacket [9] false)).st.injected.map (fun p => p.granulepos) = [0, 1024, 1024] ∧
    (main sampleLib sampleEnv ["revorb", "b.ogg"] rereadEmptyLast
      (samplePacket [7] true)).st.injected.map (fun p => p.granulepos) = [0, 1024, 2048] := by
  decide

end Revorb
